import Mathlib

/-!
Shallow embedding of the yts3 codec pipeline (chunker, packet layer,
CRC-32/MPEG-2 integrity, crypto framing, fountain encoder shape, DCT-frame
bit packing) together with proofs of the specified properties.

Bytes are modelled as `Nat` values below 256, byte strings as `List Nat`,
and machine integers as `Nat` with explicit `% 2^w` where the source relies
on wrapping (`as u16` / `as u32` casts).
-/

namespace Yts3

/-! ### Byte-level primitives (little-endian, as in byteorder::LittleEndian) -/

/-- `LittleEndian::write_u16`: the two LE bytes of `n` (wraps like `as u16`). -/
def writeU16LE (n : Nat) : List Nat := [n % 256, n / 256 % 256]

/-- `LittleEndian::write_u32`: the four LE bytes of `n` (wraps like `as u32`). -/
def writeU32LE (n : Nat) : List Nat :=
  [n % 256, n / 256 % 256, n / 65536 % 256, n / 16777216 % 256]

/-- Read a byte of a byte string, 0 out of range (reads are in range in the code). -/
def byteAt (l : List Nat) (i : Nat) : Nat := l.getD i 0

/-- `LittleEndian::read_u16` on the first two bytes of a buffer. -/
def readU16Word (l : List Nat) : Nat := byteAt l 0 + 256 * byteAt l 1

/-- `LittleEndian::read_u32` on the first four bytes of a buffer. -/
def readU32Word (l : List Nat) : Nat :=
  byteAt l 0 + 256 * byteAt l 1 + 65536 * byteAt l 2 + 16777216 * byteAt l 3

/-- `LittleEndian::read_u16(&buf[off..])`. -/
def readU16At (l : List Nat) (off : Nat) : Nat := readU16Word (l.drop off)

/-- `LittleEndian::read_u32(&buf[off..])`. -/
def readU32At (l : List Nat) (off : Nat) : Nat := readU32Word (l.drop off)

lemma writeU16LE_length (n : Nat) : (writeU16LE n).length = 2 := rfl

lemma writeU32LE_length (n : Nat) : (writeU32LE n).length = 4 := rfl

lemma readU16Word_writeU16LE (n : Nat) (tail : List Nat) :
    readU16Word (writeU16LE n ++ tail) = n % 65536 := by
  simp [readU16Word, writeU16LE, byteAt]
  omega

lemma readU32Word_writeU32LE (n : Nat) (tail : List Nat) :
    readU32Word (writeU32LE n ++ tail) = n % 4294967296 := by
  simp [readU32Word, writeU32LE, byteAt]
  omega

/-- Dropping a prefix of known length from an append. -/
lemma drop_prefix_append {α : Type} (a b : List α) (n : Nat) (h : a.length = n) :
    (a ++ b).drop n = b := by
  subst h; exact List.drop_left a b

/-- Taking a prefix of known length from an append. -/
lemma take_prefix_append {α : Type} (a b : List α) (n : Nat) (h : a.length = n) :
    (a ++ b).take n = a := by
  subst h; exact List.take_left a b

lemma drop_add {α : Type} (l : List α) (m n : Nat) :
    l.drop (n + m) = (l.drop n).drop m :=
  (List.drop_drop m n l).symm

/-! ### Config constants (src/config/mod.rs) -/

def MAGIC : Nat := 0x59545333

def PACKET_VERSION : Nat := 2

def PACKET_HEADER_SIZE : Nat := 50

def FILE_ID_SIZE : Nat := 16

def AEAD_TAG_SIZE : Nat := 16

def ENCRYPTED_HEADER_SIZE : Nat := 4

def ENCRYPTION_OVERHEAD : Nat := AEAD_TAG_SIZE + ENCRYPTED_HEADER_SIZE

def BLOCK_SIZE : Nat := 8

/-- `config::blocks_per_frame`. -/
def blocks_per_frame (width height : Nat) : Nat :=
  (width / BLOCK_SIZE) * (height / BLOCK_SIZE)

/-- `config::bytes_per_frame`. -/
def bytes_per_frame (width height bits_per_block : Nat) : Nat :=
  blocks_per_frame width height * bits_per_block / 8

/-! ### CRC-32/MPEG-2 (src/integrity/mod.rs, crc crate with CRC_32_MPEG_2:
poly 0x04C11DB7, init 0xFFFFFFFF, no reflection, no final xor) -/

def CRC_POLY : Nat := 0x04C11DB7

def CRC_INIT : Nat := 0xFFFFFFFF

/-- One shift step of the MSB-first CRC: shift left (truncated to 32 bits),
xor in the polynomial when the top bit was set. -/
def crcStep (s : Nat) : Nat :=
  if s.testBit 31 then ((2 * s) % 4294967296) ^^^ CRC_POLY else (2 * s) % 4294967296

/-- Absorb one byte into the CRC state: xor into the top byte, then 8 shift steps. -/
def crcByte (s b : Nat) : Nat := crcStep^[8] (s ^^^ (b <<< 24))

/-- Absorb a byte string into the CRC state (what `digest.update` does). -/
def crcFold (s : Nat) (l : List Nat) : Nat := l.foldl crcByte s

/-- `integrity::crc32_mpeg2`. -/
def crc32_mpeg2 (data : List Nat) : Nat := crcFold CRC_INIT data

/-- `integrity::packet_crc32`: header bytes before the CRC field, four zero
bytes in its place, header bytes after it (none for a 50-byte header and
offset 46), then the payload. -/
def packet_crc32 (header : List Nat) (crcOff : Nat) (payload : List Nat) : Nat :=
  let s1 := crcFold CRC_INIT (header.take crcOff)
  let s2 := crcFold s1 [0, 0, 0, 0]
  let s3 := if crcOff + 4 < header.length then crcFold s2 (header.drop (crcOff + 4)) else s2
  crcFold s3 payload

-- The crc crate's own test vector for CRC-32/MPEG-2 ("123456789").
set_option maxRecDepth 8000 in
example : crc32_mpeg2 [0x31, 0x32, 0x33, 0x34, 0x35, 0x36, 0x37, 0x38, 0x39] = 0x0376E6E7 := by
  decide

example : crc32_mpeg2 [] = 0xFFFFFFFF := by decide

lemma crcStep_lt (s : Nat) : crcStep s < 4294967296 := by
  unfold crcStep
  split
  · exact Nat.xor_lt_two_pow (n := 32) (Nat.mod_lt _ (by norm_num)) (by norm_num [CRC_POLY])
  · exact Nat.mod_lt _ (by norm_num)

lemma crcByte_lt (s b : Nat) : crcByte s b < 4294967296 := by
  unfold crcByte
  rw [show (8 : Nat) = 7 + 1 from rfl, Function.iterate_add_apply]
  exact crcStep_lt _

lemma crcFold_lt (l : List Nat) (s : Nat) (hs : s < 4294967296) :
    crcFold s l < 4294967296 := by
  induction l generalizing s with
  | nil => exact hs
  | cons b t ih => exact ih _ (crcByte_lt s b)

/-- Explicit inverse of `crcStep` on 32-bit states: the polynomial is odd and a
truncated left shift is even, so the low bit of the output records whether the
polynomial was xored in. -/
def crcStepInv (t : Nat) : Nat :=
  if t % 2 = 1 then (t ^^^ CRC_POLY) / 2 + 2147483648 else t / 2

lemma crcStepInv_crcStep (s : Nat) (hs : s < 4294967296) :
    crcStepInv (crcStep s) = s := by
  unfold crcStep crcStepInv
  by_cases hb : s.testBit 31
  · have hdiv : s / 2147483648 % 2 = 1 := by
      have := Nat.testBit_to_div_mod (x := s) (i := 31)
      rw [hb] at this
      exact (of_decide_eq_true this.symm : _)
    have hs31 : 2147483648 ≤ s := by omega
    have he : (2 * s) % 4294967296 = 2 * s - 4294967296 := by omega
    have heven : ((2 * s) % 4294967296) % 2 = 0 := by omega
    rw [if_pos hb, he]
    have hxodd : ((2 * s - 4294967296) ^^^ CRC_POLY) % 2 = 1 := by
      rw [Nat.xor_mod_two_eq]
      simp only [CRC_POLY]
      omega
    rw [if_pos hxodd, Nat.xor_cancel_right]
    omega
  · have hdiv : s / 2147483648 % 2 = 0 := by
      have := Nat.testBit_to_div_mod (x := s) (i := 31)
      rw [Bool.eq_false_iff.mpr hb] at this
      have h2 := of_decide_eq_false this.symm
      omega
    have hs31 : s < 2147483648 := by omega
    have he : (2 * s) % 4294967296 = 2 * s := by omega
    rw [if_neg hb, he]
    have : (2 * s) % 2 = 0 := by omega
    rw [if_neg (by omega)]
    omega

lemma crcStep_inj {s1 s2 : Nat} (h1 : s1 < 4294967296) (h2 : s2 < 4294967296)
    (h : crcStep s1 = crcStep s2) : s1 = s2 := by
  rw [← crcStepInv_crcStep s1 h1, ← crcStepInv_crcStep s2 h2, h]

lemma crcStepN_inj (n : Nat) {s1 s2 : Nat} (h1 : s1 < 4294967296)
    (h2 : s2 < 4294967296) (h : crcStep^[n] s1 = crcStep^[n] s2) : s1 = s2 := by
  induction n generalizing s1 s2 with
  | zero => simpa using h
  | succ m ih =>
    rw [Function.iterate_succ_apply, Function.iterate_succ_apply] at h
    exact crcStep_inj h1 h2 (ih (crcStep_lt s1) (crcStep_lt s2) h)

lemma shift24_lt {b : Nat} (hb : b < 256) : b <<< 24 < 4294967296 := by
  rw [Nat.shiftLeft_eq]
  omega

lemma crcByte_inj_state {s1 s2 b : Nat} (h1 : s1 < 4294967296)
    (h2 : s2 < 4294967296) (hb : b < 256) (h : crcByte s1 b = crcByte s2 b) :
    s1 = s2 := by
  have hx1 : s1 ^^^ (b <<< 24) < 4294967296 :=
    Nat.xor_lt_two_pow (n := 32) h1 (shift24_lt hb)
  have hx2 : s2 ^^^ (b <<< 24) < 4294967296 :=
    Nat.xor_lt_two_pow (n := 32) h2 (shift24_lt hb)
  have := crcStepN_inj 8 hx1 hx2 h
  have h' := congrArg (fun x => x ^^^ (b <<< 24)) this
  simpa [Nat.xor_cancel_right] using h'

lemma crcByte_inj_byte {s b1 b2 : Nat} (hs : s < 4294967296)
    (hb1 : b1 < 256) (hb2 : b2 < 256) (h : crcByte s b1 = crcByte s b2) :
    b1 = b2 := by
  have hx1 : s ^^^ (b1 <<< 24) < 4294967296 :=
    Nat.xor_lt_two_pow (n := 32) hs (shift24_lt hb1)
  have hx2 : s ^^^ (b2 <<< 24) < 4294967296 :=
    Nat.xor_lt_two_pow (n := 32) hs (shift24_lt hb2)
  have hx := crcStepN_inj 8 hx1 hx2 h
  have h' : s ^^^ (s ^^^ b1 <<< 24) = s ^^^ (s ^^^ b2 <<< 24) := by rw [hx]
  rw [Nat.xor_cancel_left, Nat.xor_cancel_left] at h'
  rw [Nat.shiftLeft_eq, Nat.shiftLeft_eq] at h'
  exact Nat.eq_of_mul_eq_mul_right (by norm_num) h'

lemma crcFold_inj_state (l : List Nat) (hl : ∀ b ∈ l, b < 256) {s1 s2 : Nat}
    (h1 : s1 < 4294967296) (h2 : s2 < 4294967296)
    (h : crcFold s1 l = crcFold s2 l) : s1 = s2 := by
  induction l generalizing s1 s2 with
  | nil => simpa [crcFold] using h
  | cons b t ih =>
    have hb : b < 256 := hl b (List.mem_cons_self b t)
    have ht : ∀ x ∈ t, x < 256 := fun x hx => hl x (List.mem_cons_of_mem b hx)
    have hstep : crcByte s1 b = crcByte s2 b :=
      ih ht (crcByte_lt s1 b) (crcByte_lt s2 b) (by simpa [crcFold] using h)
    exact crcByte_inj_state h1 h2 hb hstep

/-- Two byte strings that agree except at one position have different CRC folds
from any common 32-bit start state. -/
lemma crcFold_ne_of_single_change (s : Nat) (hs : s < 4294967296)
    (pre suf : List Nat) (b b' : Nat) (hb : b < 256) (hb' : b' < 256)
    (hsuf : ∀ x ∈ suf, x < 256) (hne : b ≠ b') :
    crcFold s (pre ++ b :: suf) ≠ crcFold s (pre ++ b' :: suf) := by
  intro h
  have h1 : crcFold s (pre ++ b :: suf)
      = crcFold (crcByte (crcFold s pre) b) suf := by
    simp [crcFold, List.foldl_append]
  have h2 : crcFold s (pre ++ b' :: suf)
      = crcFold (crcByte (crcFold s pre) b') suf := by
    simp [crcFold, List.foldl_append]
  rw [h1, h2] at h
  have hmid : crcByte (crcFold s pre) b = crcByte (crcFold s pre) b' :=
    crcFold_inj_state suf hsuf (crcByte_lt _ _) (crcByte_lt _ _) h
  exact hne (crcByte_inj_byte (crcFold_lt pre s hs) hb hb' hmid)

/-! ### Packet layer (src/packet/mod.rs)

Header field offsets (V2, 50 bytes total): magic 0, version 4, flags 5,
file_id 6, chunk_index 22, chunk_size 26, original_size 30, symbol_size 34,
k 36, esi 40, payload_len 44, crc 46.  The writes in `serialize_packet`
cover offsets 0..45 contiguously, so the header is modelled as the
concatenation of the field encodings. -/

inductive PacketError where
  | invalidMagic (expected got : Nat)
  | unsupportedVersion (v : Nat)
  | crcMismatch (expected computed : Nat)
  | bufferTooShort (needBytes haveBytes : Nat)
  | payloadLengthMismatch
  deriving DecidableEq

structure PacketHeader where
  magic : Nat
  version : Nat
  flags : Nat
  file_id : List Nat
  chunk_index : Nat
  chunk_size : Nat
  original_size : Nat
  symbol_size : Nat
  k : Nat
  esi : Nat
  payload_length : Nat
  crc : Nat
  deriving DecidableEq

structure Packet where
  header : PacketHeader
  payload : List Nat
  deriving DecidableEq

/-- Bytes 0..45 of the header: every field except the CRC. -/
def packetHeaderPre (file_id : List Nat)
    (chunk_index chunk_size original_size symbol_size k esi flags plen : Nat) :
    List Nat :=
  writeU32LE MAGIC ++ [PACKET_VERSION, flags] ++ file_id ++
    writeU32LE chunk_index ++ writeU32LE chunk_size ++ writeU32LE original_size ++
    writeU16LE symbol_size ++ writeU32LE k ++ writeU32LE esi ++ writeU16LE plen

/-- `packet::serialize_packet`: build the 46 field bytes, compute the CRC over
header-with-zeroed-CRC-field plus payload, then emit header ++ payload.
`payload.len() as u16` is `payload.length % 65536`. -/
def serialize_packet (file_id : List Nat)
    (chunk_index chunk_size original_size symbol_size k esi flags : Nat)
    (payload : List Nat) : List Nat :=
  let pre := packetHeaderPre file_id chunk_index chunk_size original_size
    symbol_size k esi flags (payload.length % 65536)
  let crc := packet_crc32 (pre ++ [0, 0, 0, 0]) 46 payload
  pre ++ writeU32LE crc ++ payload

/-- `packet::deserialize_packet`.  Field reads go through the first 50 bytes of
`data` (the source reads `&data[..50]`; values at offsets below 50 agree).
Returns the packet and the number of bytes consumed. -/
def deserialize_packet (data : List Nat) : Except PacketError (Packet × Nat) :=
  if data.length < PACKET_HEADER_SIZE then
    .error (.bufferTooShort PACKET_HEADER_SIZE data.length)
  else
    let magic := readU32At data 0
    if magic ≠ MAGIC then .error (.invalidMagic MAGIC magic)
    else
      let version := byteAt data 4
      if version ≠ PACKET_VERSION then .error (.unsupportedVersion version)
      else
        let flags := byteAt data 5
        let file_id := (data.drop 6).take FILE_ID_SIZE
        let chunk_index := readU32At data 22
        let chunk_size := readU32At data 26
        let original_size := readU32At data 30
        let symbol_size := readU16At data 34
        let k := readU32At data 36
        let esi := readU32At data 40
        let payload_length := readU16At data 44
        let crc := readU32At data 46
        let total_len := PACKET_HEADER_SIZE + payload_length
        if data.length < total_len then .error (.bufferTooShort total_len data.length)
        else
          let payload := (data.drop PACKET_HEADER_SIZE).take payload_length
          let computed := packet_crc32 (data.take PACKET_HEADER_SIZE) 46 payload
          if computed ≠ crc then .error (.crcMismatch crc computed)
          else
            .ok (⟨⟨magic, version, flags, file_id, chunk_index, chunk_size,
              original_size, symbol_size, k, esi, payload_length, crc⟩, payload⟩,
              total_len)

lemma packetHeaderPre_length (fid : List Nat)
    (ci cs os ss k esi fl plen : Nat) (hfid : fid.length = FILE_ID_SIZE) :
    (packetHeaderPre fid ci cs os ss k esi fl plen).length = 46 := by
  simp [packetHeaderPre, hfid, writeU32LE, writeU16LE, FILE_ID_SIZE]

lemma serialize_packet_length (fid : List Nat)
    (ci cs os ss k esi fl : Nat) (payload : List Nat)
    (hfid : fid.length = FILE_ID_SIZE) :
    (serialize_packet fid ci cs os ss k esi fl payload).length
      = 50 + payload.length := by
  simp [serialize_packet, packetHeaderPre_length _ _ _ _ _ _ _ _ _ hfid, writeU32LE]
  omega

/-- The state of the CRC after absorbing header-with-zeroed-CRC-field: what
both the serializer and the deserializer feed before the payload. -/
def crcHeaderState (pre : List Nat) : Nat :=
  crcFold (crcFold CRC_INIT pre) [0, 0, 0, 0]

lemma packet_crc32_pre (pre w payload : List Nat) (hpre : pre.length = 46)
    (hw : w.length = 4) :
    packet_crc32 (pre ++ w) 46 payload = crcFold (crcHeaderState pre) payload := by
  unfold packet_crc32 crcHeaderState
  rw [take_prefix_append pre w 46 hpre]
  have hlen : (pre ++ w).length = 50 := by simp [hpre, hw]
  rw [hlen]
  norm_num

lemma byteAt_drop (l : List Nat) (m : Nat) : byteAt l m = byteAt (l.drop m) 0 := by
  simp [byteAt, List.getD_eq_getElem?_getD, List.getElem?_drop]

/-- Master evaluation lemma: deserializing a buffer that starts with a
well-formed header (46 field bytes, then a stored 4-byte CRC `c`), followed by
`plen` payload bytes `q` and arbitrary trailing bytes, reaches the CRC check
and succeeds exactly when the recomputed CRC over `q` equals `c`. -/
lemma deserialize_packet_eval (fid : List Nat)
    (ci cs os ss kk es fl plen c : Nat) (q rest : List Nat)
    (hfid : fid.length = FILE_ID_SIZE) (hplen : plen < 65536)
    (hq : q.length = plen) (hc : c < 4294967296) :
    deserialize_packet
        (packetHeaderPre fid ci cs os ss kk es fl plen ++ (writeU32LE c ++ (q ++ rest)))
      = if crcFold (crcHeaderState (packetHeaderPre fid ci cs os ss kk es fl plen)) q = c
        then .ok (⟨⟨MAGIC, PACKET_VERSION, fl, fid, ci % 4294967296, cs % 4294967296,
            os % 4294967296, ss % 65536, kk % 4294967296, es % 4294967296, plen, c⟩, q⟩,
            50 + plen)
        else .error (.crcMismatch c
          (crcFold (crcHeaderState (packetHeaderPre fid ci cs os ss kk es fl plen)) q)) := by
  have hfid' : fid.length = 16 := hfid
  set pre := packetHeaderPre fid ci cs os ss kk es fl plen with hpre
  set D := pre ++ (writeU32LE c ++ (q ++ rest)) with hD
  have hpre46 : pre.length = 46 := packetHeaderPre_length _ _ _ _ _ _ _ _ _ hfid
  have hDlen : D.length = 50 + plen + rest.length := by
    simp [hD, hpre46, hq, writeU32LE]
    omega
  have e0 : D = writeU32LE MAGIC ++ ([PACKET_VERSION, fl] ++ (fid ++ (writeU32LE ci ++
      (writeU32LE cs ++ (writeU32LE os ++ (writeU16LE ss ++ (writeU32LE kk ++
      (writeU32LE es ++ (writeU16LE plen ++ (writeU32LE c ++ (q ++ rest))))))))))) := by
    simp only [hD, hpre, packetHeaderPre, List.append_assoc]
  have d4 : D.drop 4 = [PACKET_VERSION, fl] ++ (fid ++ (writeU32LE ci ++
      (writeU32LE cs ++ (writeU32LE os ++ (writeU16LE ss ++ (writeU32LE kk ++
      (writeU32LE es ++ (writeU16LE plen ++ (writeU32LE c ++ (q ++ rest)))))))))) := by
    rw [e0]; exact drop_prefix_append _ _ 4 rfl
  have d5 : D.drop 5 = fl :: (fid ++ (writeU32LE ci ++
      (writeU32LE cs ++ (writeU32LE os ++ (writeU16LE ss ++ (writeU32LE kk ++
      (writeU32LE es ++ (writeU16LE plen ++ (writeU32LE c ++ (q ++ rest)))))))))) := by
    rw [show (5 : Nat) = 4 + 1 from rfl, drop_add, d4]; rfl
  have d6 : D.drop 6 = fid ++ (writeU32LE ci ++
      (writeU32LE cs ++ (writeU32LE os ++ (writeU16LE ss ++ (writeU32LE kk ++
      (writeU32LE es ++ (writeU16LE plen ++ (writeU32LE c ++ (q ++ rest))))))))) := by
    rw [show (6 : Nat) = 4 + 2 from rfl, drop_add, d4]; rfl
  have d22 : D.drop 22 = writeU32LE ci ++
      (writeU32LE cs ++ (writeU32LE os ++ (writeU16LE ss ++ (writeU32LE kk ++
      (writeU32LE es ++ (writeU16LE plen ++ (writeU32LE c ++ (q ++ rest)))))))) := by
    rw [show (22 : Nat) = 6 + 16 from rfl, drop_add, d6,
      drop_prefix_append _ _ 16 hfid']
  have d26 : D.drop 26 = writeU32LE cs ++ (writeU32LE os ++ (writeU16LE ss ++
      (writeU32LE kk ++ (writeU32LE es ++ (writeU16LE plen ++
      (writeU32LE c ++ (q ++ rest))))))) := by
    rw [show (26 : Nat) = 22 + 4 from rfl, drop_add, d22,
      drop_prefix_append (writeU32LE ci) _ 4 (writeU32LE_length ci)]
  have d30 : D.drop 30 = writeU32LE os ++ (writeU16LE ss ++ (writeU32LE kk ++
      (writeU32LE es ++ (writeU16LE plen ++ (writeU32LE c ++ (q ++ rest)))))) := by
    rw [show (30 : Nat) = 26 + 4 from rfl, drop_add, d26,
      drop_prefix_append (writeU32LE cs) _ 4 (writeU32LE_length cs)]
  have d34 : D.drop 34 = writeU16LE ss ++ (writeU32LE kk ++
      (writeU32LE es ++ (writeU16LE plen ++ (writeU32LE c ++ (q ++ rest))))) := by
    rw [show (34 : Nat) = 30 + 4 from rfl, drop_add, d30,
      drop_prefix_append (writeU32LE os) _ 4 (writeU32LE_length os)]
  have d36 : D.drop 36 = writeU32LE kk ++
      (writeU32LE es ++ (writeU16LE plen ++ (writeU32LE c ++ (q ++ rest)))) := by
    rw [show (36 : Nat) = 34 + 2 from rfl, drop_add, d34,
      drop_prefix_append (writeU16LE ss) _ 2 (writeU16LE_length ss)]
  have d40 : D.drop 40 = writeU32LE es ++ (writeU16LE plen ++
      (writeU32LE c ++ (q ++ rest))) := by
    rw [show (40 : Nat) = 36 + 4 from rfl, drop_add, d36,
      drop_prefix_append (writeU32LE kk) _ 4 (writeU32LE_length kk)]
  have d44 : D.drop 44 = writeU16LE plen ++ (writeU32LE c ++ (q ++ rest)) := by
    rw [show (44 : Nat) = 40 + 4 from rfl, drop_add, d40,
      drop_prefix_append (writeU32LE es) _ 4 (writeU32LE_length es)]
  have d46 : D.drop 46 = writeU32LE c ++ (q ++ rest) := by
    rw [show (46 : Nat) = 44 + 2 from rfl, drop_add, d44,
      drop_prefix_append (writeU16LE plen) _ 2 (writeU16LE_length plen)]
  have d50 : D.drop 50 = q ++ rest := by
    rw [show (50 : Nat) = 46 + 4 from rfl, drop_add, d46,
      drop_prefix_append (writeU32LE c) _ 4 (writeU32LE_length c)]
  have rmagic : readU32At D 0 = MAGIC := by
    show readU32Word (D.drop 0) = MAGIC
    rw [List.drop_zero, e0, readU32Word_writeU32LE]
    decide
  have rver : byteAt D 4 = PACKET_VERSION := by rw [byteAt_drop, d4]; rfl
  have rflags : byteAt D 5 = fl := by rw [byteAt_drop, d5]; rfl
  have rfid : (D.drop 6).take FILE_ID_SIZE = fid := by
    rw [d6]; exact take_prefix_append _ _ _ hfid
  have rci : readU32At D 22 = ci % 4294967296 := by
    show readU32Word (D.drop 22) = _
    rw [d22, readU32Word_writeU32LE]
  have rcs : readU32At D 26 = cs % 4294967296 := by
    show readU32Word (D.drop 26) = _
    rw [d26, readU32Word_writeU32LE]
  have ros : readU32At D 30 = os % 4294967296 := by
    show readU32Word (D.drop 30) = _
    rw [d30, readU32Word_writeU32LE]
  have rss : readU16At D 34 = ss % 65536 := by
    show readU16Word (D.drop 34) = _
    rw [d34, readU16Word_writeU16LE]
  have rkk : readU32At D 36 = kk % 4294967296 := by
    show readU32Word (D.drop 36) = _
    rw [d36, readU32Word_writeU32LE]
  have res : readU32At D 40 = es % 4294967296 := by
    show readU32Word (D.drop 40) = _
    rw [d40, readU32Word_writeU32LE]
  have rpl : readU16At D 44 = plen := by
    show readU16Word (D.drop 44) = _
    rw [d44, readU16Word_writeU16LE, Nat.mod_eq_of_lt hplen]
  have rcrc : readU32At D 46 = c := by
    show readU32Word (D.drop 46) = _
    rw [d46, readU32Word_writeU32LE, Nat.mod_eq_of_lt hc]
  have rpay : (D.drop PACKET_HEADER_SIZE).take plen = q := by
    show (D.drop 50).take plen = q
    rw [d50]; exact take_prefix_append _ _ _ hq
  have t50 : D.take PACKET_HEADER_SIZE = pre ++ writeU32LE c := by
    show D.take 50 = pre ++ writeU32LE c
    rw [show D = (pre ++ writeU32LE c) ++ (q ++ rest) from by
      simp [hD, List.append_assoc]]
    exact take_prefix_append _ _ 50 (by simp [hpre46, writeU32LE])
  have h1 : ¬ (D.length < PACKET_HEADER_SIZE) := by
    rw [hDlen]
    show ¬ (50 + plen + rest.length < 50)
    omega
  have h2 : ¬ (D.length < PACKET_HEADER_SIZE + plen) := by
    rw [hDlen]
    show ¬ (50 + plen + rest.length < 50 + plen)
    omega
  have hcomp : packet_crc32 (D.take PACKET_HEADER_SIZE) 46 q
      = crcFold (crcHeaderState pre) q := by
    rw [t50]; exact packet_crc32_pre _ _ _ hpre46 (writeU32LE_length c)
  simp only [deserialize_packet]
  rw [if_neg h1, rmagic, if_neg (by simp), rver, if_neg (by simp), rflags, rfid,
    rci, rcs, ros, rss, rkk, res, rpl, rcrc, if_neg h2, rpay, hcomp]
  by_cases hcrc : crcFold (crcHeaderState pre) q = c
  · rw [if_neg (by simpa using hcrc), if_pos hcrc]
    simp [PACKET_HEADER_SIZE, Nat.add_comm]
  · rw [if_pos (by simpa using hcrc), if_neg hcrc]

lemma crcHeaderState_lt (pre : List Nat) : crcHeaderState pre < 4294967296 :=
  crcFold_lt _ _ (crcFold_lt _ _ (by norm_num [CRC_INIT]))

lemma packet_crc32_as_fold (fid : List Nat) (ci cs os ss kk es fl plen : Nat)
    (payload : List Nat) (hfid : fid.length = FILE_ID_SIZE) :
    packet_crc32 (packetHeaderPre fid ci cs os ss kk es fl plen ++ [0, 0, 0, 0])
        46 payload
      = crcFold (crcHeaderState (packetHeaderPre fid ci cs os ss kk es fl plen))
          payload :=
  packet_crc32_pre _ _ _ (packetHeaderPre_length _ _ _ _ _ _ _ _ _ hfid) rfl

/-- Deserializing a serialized packet with any trailing bytes succeeds,
returns the serialized fields, and consumes exactly the packet's bytes. -/
lemma deserialize_serialize_append (fid : List Nat) (ci cs os ss kk es fl : Nat)
    (payload rest : List Nat) (hfid : fid.length = FILE_ID_SIZE)
    (hci : ci < 4294967296) (hcs : cs < 4294967296) (hos : os < 4294967296)
    (hss : ss < 65536) (hkk : kk < 4294967296) (hes : es < 4294967296)
    (hpl : payload.length < 65536) :
    deserialize_packet (serialize_packet fid ci cs os ss kk es fl payload ++ rest)
      = .ok (⟨⟨MAGIC, PACKET_VERSION, fl, fid, ci, cs, os, ss, kk, es,
          payload.length,
          packet_crc32 (packetHeaderPre fid ci cs os ss kk es fl payload.length
            ++ [0, 0, 0, 0]) 46 payload⟩, payload⟩, 50 + payload.length) := by
  have hmod : payload.length % 65536 = payload.length := Nat.mod_eq_of_lt hpl
  set c := packet_crc32 (packetHeaderPre fid ci cs os ss kk es fl payload.length
    ++ [0, 0, 0, 0]) 46 payload with hcdef
  have hclt : c < 4294967296 := by
    rw [hcdef, packet_crc32_as_fold fid ci cs os ss kk es fl _ payload hfid]
    exact crcFold_lt _ _ (crcHeaderState_lt _)
  have hser : serialize_packet fid ci cs os ss kk es fl payload ++ rest
      = packetHeaderPre fid ci cs os ss kk es fl payload.length ++
        (writeU32LE c ++ (payload ++ rest)) := by
    simp only [serialize_packet, hmod, hcdef, List.append_assoc]
  rw [hser, deserialize_packet_eval fid ci cs os ss kk es fl payload.length c
    payload rest hfid hpl rfl hclt]
  rw [if_pos (by rw [hcdef, packet_crc32_as_fold fid ci cs os ss kk es fl _ payload hfid])]
  simp only [Nat.mod_eq_of_lt hci, Nat.mod_eq_of_lt hcs, Nat.mod_eq_of_lt hos,
    Nat.mod_eq_of_lt hss, Nat.mod_eq_of_lt hkk, Nat.mod_eq_of_lt hes]

/-- C1: serialize-then-deserialize returns a packet whose header fields and
payload equal the serialized inputs byte-for-byte, consuming exactly
50 + payload-length bytes. -/
theorem packet_roundtrip (fid : List Nat) (ci cs os ss kk es fl : Nat)
    (payload : List Nat) (hfid : fid.length = FILE_ID_SIZE)
    (hci : ci < 4294967296) (hcs : cs < 4294967296) (hos : os < 4294967296)
    (hss : ss < 65536) (hkk : kk < 4294967296) (hes : es < 4294967296)
    (_hfl : fl < 256) (hpl : payload.length < 65536) :
    deserialize_packet (serialize_packet fid ci cs os ss kk es fl payload)
      = .ok (⟨⟨MAGIC, PACKET_VERSION, fl, fid, ci, cs, os, ss, kk, es,
          payload.length,
          packet_crc32 (packetHeaderPre fid ci cs os ss kk es fl payload.length
            ++ [0, 0, 0, 0]) 46 payload⟩, payload⟩, 50 + payload.length) := by
  have h := deserialize_serialize_append fid ci cs os ss kk es fl payload []
    hfid hci hcs hos hss hkk hes hpl
  rwa [List.append_nil] at h

def demoFileId : List Nat := [0, 1, 2, 3, 4, 5, 6, 7, 8, 9, 10, 11, 12, 13, 14, 15]

set_option maxRecDepth 8000 in
/-- Witness for C1 at the source's own test inputs. -/
theorem packet_roundtrip_witness :
    demoFileId.length = FILE_ID_SIZE ∧
    ∃ v, deserialize_packet (serialize_packet demoFileId 3 1024 900 256 4 3 2
        (List.replicate 256 0xAA)) = .ok v :=
  ⟨by decide, ⟨_, packet_roundtrip demoFileId 3 1024 900 256 4 3 2
    (List.replicate 256 0xAA) (by decide) (by decide) (by decide) (by decide)
    (by decide) (by decide) (by decide) (by decide)
    (by rw [List.length_replicate]; norm_num)⟩⟩

/-! ### C5: a single changed payload byte is always caught by the CRC -/

lemma take_getD_cons_drop (l : List Nat) (n : Nat) (h : n < l.length) :
    l.take n ++ l.getD n 0 :: l.drop (n + 1) = l := by
  induction l generalizing n with
  | nil => simp at h
  | cons x t ih =>
    cases n with
    | zero => simp
    | succ m =>
      simp only [List.take_succ_cons, List.getD_cons_succ, List.drop_succ_cons,
        List.cons_append]
      rw [ih m (by simpa using h)]

lemma set_append_right_of_le (a b : List Nat) (n v : Nat) (h : a.length ≤ n) :
    (a ++ b).set n v = a ++ b.set (n - a.length) v := by
  induction a generalizing n with
  | nil => simp
  | cons x t ih =>
    cases n with
    | zero => simp at h
    | succ m =>
      simp only [List.cons_append, List.set_cons_succ, List.length_cons,
        Nat.succ_sub_succ]
      exact congrArg (x :: ·) (ih m (by simpa using h))

lemma getD_lt_of_forall (l : List Nat) (i : Nat) (h : i < l.length)
    (hb : ∀ b ∈ l, b < 256) : l.getD i 0 < 256 := by
  induction l generalizing i with
  | nil => simp at h
  | cons x t ih =>
    cases i with
    | zero => exact hb x (List.mem_cons_self x t)
    | succ m =>
      exact ih m (by simpa using h) (fun b hbm => hb b (List.mem_cons_of_mem x hbm))

/-- C5: replacing any payload byte of a serialized packet by a different byte
value makes deserialization fail with a CRC-mismatch error. -/
theorem payload_tamper_crc_mismatch (fid : List Nat) (ci cs os ss kk es fl : Nat)
    (payload : List Nat) (hfid : fid.length = FILE_ID_SIZE)
    (hpl : payload.length < 65536) (hbytes : ∀ b ∈ payload, b < 256)
    (i : Nat) (hi : i < payload.length) (b' : Nat) (hb' : b' < 256)
    (hne : b' ≠ payload.getD i 0) :
    ∃ c1 c2, deserialize_packet
        ((serialize_packet fid ci cs os ss kk es fl payload).set (50 + i) b')
      = .error (.crcMismatch c1 c2) := by
  have hmod : payload.length % 65536 = payload.length := Nat.mod_eq_of_lt hpl
  set pre := packetHeaderPre fid ci cs os ss kk es fl payload.length with hpredef
  set c := packet_crc32 (pre ++ [0, 0, 0, 0]) 46 payload with hcdef
  have hclt : c < 4294967296 := by
    rw [hcdef, hpredef, packet_crc32_as_fold fid ci cs os ss kk es fl _ payload hfid]
    exact crcFold_lt _ _ (crcHeaderState_lt _)
  have hpre46 : pre.length = 46 := packetHeaderPre_length _ _ _ _ _ _ _ _ _ hfid
  set q := payload.set i b' with hqdef
  have hqlen : q.length = payload.length := by simp [hqdef]
  have hset : (serialize_packet fid ci cs os ss kk es fl payload).set (50 + i) b'
      = pre ++ (writeU32LE c ++ q) := by
    have h1 : serialize_packet fid ci cs os ss kk es fl payload
        = (pre ++ writeU32LE c) ++ payload := by
      simp only [serialize_packet, hmod, ← hpredef, ← hcdef, List.append_assoc]
    rw [h1, set_append_right_of_le _ _ _ _ (by simp [hpre46, writeU32LE])]
    have h2 : 50 + i - (pre ++ writeU32LE c).length = i := by
      simp [hpre46, writeU32LE]
    rw [h2, List.append_assoc, ← hqdef]
  have hm := deserialize_packet_eval fid ci cs os ss kk es fl payload.length c
    q [] hfid hpl hqlen hclt
  rw [List.append_nil] at hm
  have hnecrc : ¬ (crcFold (crcHeaderState pre) q = c) := by
    have hqdecomp : q = payload.take i ++ b' :: payload.drop (i + 1) :=
      List.set_eq_take_cons_drop b' hi
    have hne2 := crcFold_ne_of_single_change (crcHeaderState pre)
      (crcHeaderState_lt pre) (payload.take i) (payload.drop (i + 1)) b'
      (payload.getD i 0) hb' (getD_lt_of_forall payload i hi hbytes)
      (fun x hx => hbytes x (List.drop_subset _ _ hx)) hne
    rw [take_getD_cons_drop payload i hi, ← hqdecomp] at hne2
    rw [hcdef, hpredef,
      packet_crc32_as_fold fid ci cs os ss kk es fl _ payload hfid, ← hpredef]
    exact hne2
  rw [hset, hm, if_neg hnecrc]
  exact ⟨_, _, rfl⟩

set_option maxRecDepth 8000 in
/-- Witness for C5: the spec's concrete tamper scenario — payload
`[0xBB; 128]`, byte at offset 50 + 10 flipped (0xBB xor 0xFF = 0x44). -/
theorem payload_tamper_witness :
    (0x44 : Nat) ≠ (List.replicate 128 0xBB).getD 10 0 ∧
    ∃ c1 c2, deserialize_packet
        ((serialize_packet demoFileId 0 512 512 128 4 0 0
          (List.replicate 128 0xBB)).set (50 + 10) 0x44)
      = .error (.crcMismatch c1 c2) :=
  ⟨by decide, payload_tamper_crc_mismatch demoFileId 0 512 512 128 4 0 0
    (List.replicate 128 0xBB) (by decide)
    (by rw [List.length_replicate]; norm_num) (by decide) 10
    (by rw [List.length_replicate]; norm_num) 0x44 (by decide) (by decide)⟩

/-! ### C4: magic-scan resync (packet::scan_for_packets / find_magic) -/

/-- `MAGIC.to_le_bytes()`. -/
def magicBytes : List Nat := [0x33, 0x53, 0x54, 0x59]

/-- `packet::find_magic`: position of the first 4-byte window equal to `magic`
(`data.windows(4).position`). -/
def find_magic : List Nat → List Nat → Option Nat
  | [], _ => none
  | d :: rest, magic =>
    if (d :: rest).take 4 = magic then some 0
    else (find_magic rest magic).map (· + 1)

/-- The scanner loop of `scan_for_packets`, with the loop turned into
structural recursion on a fuel counter.  Each iteration either stops or moves
`offset` forward by at least one byte, and the loop guard requires
`offset + 50 ≤ data.length`, so `data.length + 1` units of fuel always
suffice. -/
def scanGo (data : List Nat) : Nat → Nat → List Packet
  | 0, _ => []
  | fuel + 1, offset =>
    if offset + PACKET_HEADER_SIZE ≤ data.length then
      match find_magic (data.drop offset) magicBytes with
      | some pos =>
        match deserialize_packet (data.drop (offset + pos)) with
        | .ok (pkt, consumed) => pkt :: scanGo data fuel (offset + pos + consumed)
        | .error _ => scanGo data fuel (offset + pos + 1)
      | none => []
    else []

/-- `packet::scan_for_packets`. -/
def scan_for_packets (data : List Nat) : List Packet :=
  scanGo data (data.length + 1) 0

/-- "The 4-byte magic occurs at position `i` of `s`." -/
def magicAt (s : List Nat) (i : Nat) : Prop := (s.drop i).take 4 = magicBytes

instance (s : List Nat) (i : Nat) : Decidable (magicAt s i) :=
  inferInstanceAs (Decidable (_ = _))

lemma magicAt_le_length {s : List Nat} {i : Nat} (h : magicAt s i) :
    i + 4 ≤ s.length := by
  have hl := congrArg List.length h
  simp [magicBytes] at hl
  omega

lemma magicAt_drop (s : List Nat) (k i : Nat) :
    magicAt (s.drop k) i ↔ magicAt s (k + i) := by
  unfold magicAt
  rw [drop_add]

lemma find_magic_of_first (l : List Nat) (i : Nat) (hi : magicAt l i)
    (hmin : ∀ j, j < i → ¬ magicAt l j) : find_magic l magicBytes = some i := by
  induction i generalizing l with
  | zero =>
    cases l with
    | nil => simp [magicAt, magicBytes] at hi
    | cons d rest =>
      unfold find_magic
      rw [if_pos (by simpa [magicAt] using hi)]
  | succ m ih =>
    cases l with
    | nil => simp [magicAt, magicBytes] at hi
    | cons d rest =>
      have h0 : ¬ magicAt (d :: rest) 0 := hmin 0 (Nat.succ_pos m)
      unfold find_magic
      rw [if_neg (by simpa [magicAt] using h0)]
      have hrest : magicAt rest m := by
        simpa [magicAt, List.drop_succ_cons] using hi
      have hminrest : ∀ j, j < m → ¬ magicAt rest j := by
        intro j hj hmag
        exact hmin (j + 1) (by omega) (by simpa [magicAt, List.drop_succ_cons] using hmag)
      rw [ih rest hrest hminrest]
      rfl

lemma magicAt_of_find_magic {l : List Nat} {i : Nat}
    (h : find_magic l magicBytes = some i) : magicAt l i := by
  induction l generalizing i with
  | nil => simp [find_magic] at h
  | cons d rest ih =>
    unfold find_magic at h
    by_cases hc : (d :: rest).take 4 = magicBytes
    · rw [if_pos hc] at h
      cases h
      simpa [magicAt] using hc
    · rw [if_neg hc] at h
      rcases Option.map_eq_some'.mp h with ⟨j, hj, hji⟩
      have := ih hj
      subst hji
      simpa [magicAt, List.drop_succ_cons] using this

/-- The first four bytes of a serialized packet are the magic bytes. -/
lemma serialize_packet_take4 (fid : List Nat) (ci cs os ss kk es fl : Nat)
    (payload tail : List Nat) :
    (serialize_packet fid ci cs os ss kk es fl payload ++ tail).take 4
      = magicBytes := by
  simp only [serialize_packet, packetHeaderPre, List.append_assoc]
  rw [take_prefix_append (writeU32LE MAGIC)
    ([PACKET_VERSION, fl] ++ (fid ++ _)) 4 (writeU32LE_length MAGIC)]
  decide

lemma scanGo_succ (data : List Nat) (fuel offset : Nat) :
    scanGo data (fuel + 1) offset =
      if offset + PACKET_HEADER_SIZE ≤ data.length then
        match find_magic (data.drop offset) magicBytes with
        | some pos =>
          match deserialize_packet (data.drop (offset + pos)) with
          | .ok (pkt, consumed) => pkt :: scanGo data fuel (offset + pos + consumed)
          | .error _ => scanGo data fuel (offset + pos + 1)
        | none => []
      else [] := rfl

/-- C4 (amended): if the magic bytes occur in the stream only at the start
positions of the two embedded packets, the scanner recovers exactly those two
packets in order.  (As literally stated — with fully arbitrary garbage — the
claim is false: garbage may itself contain a valid packet; see the
counterexample.) -/
theorem magic_resync_two_packets
    (fid1 : List Nat) (ci1 cs1 os1 ss1 k1 e1 fl1 : Nat) (pl1 : List Nat)
    (fid2 : List Nat) (ci2 cs2 os2 ss2 k2 e2 fl2 : Nat) (pl2 : List Nat)
    (g0 g1 g2 : List Nat)
    (hfid1 : fid1.length = FILE_ID_SIZE) (hci1 : ci1 < 4294967296)
    (hcs1 : cs1 < 4294967296) (hos1 : os1 < 4294967296) (hss1 : ss1 < 65536)
    (hk1 : k1 < 4294967296) (he1 : e1 < 4294967296) (hpl1 : pl1.length < 65536)
    (hfid2 : fid2.length = FILE_ID_SIZE) (hci2 : ci2 < 4294967296)
    (hcs2 : cs2 < 4294967296) (hos2 : os2 < 4294967296) (hss2 : ss2 < 65536)
    (hk2 : k2 < 4294967296) (he2 : e2 < 4294967296) (hpl2 : pl2.length < 65536)
    (hocc : ∀ i, i < (g0 ++ (serialize_packet fid1 ci1 cs1 os1 ss1 k1 e1 fl1 pl1 ++
        (g1 ++ (serialize_packet fid2 ci2 cs2 os2 ss2 k2 e2 fl2 pl2 ++ g2)))).length →
      magicAt (g0 ++ (serialize_packet fid1 ci1 cs1 os1 ss1 k1 e1 fl1 pl1 ++
        (g1 ++ (serialize_packet fid2 ci2 cs2 os2 ss2 k2 e2 fl2 pl2 ++ g2)))) i →
      i = g0.length ∨ i = g0.length + (50 + pl1.length) + g1.length) :
    scan_for_packets (g0 ++ (serialize_packet fid1 ci1 cs1 os1 ss1 k1 e1 fl1 pl1 ++
        (g1 ++ (serialize_packet fid2 ci2 cs2 os2 ss2 k2 e2 fl2 pl2 ++ g2))))
      = [⟨⟨MAGIC, PACKET_VERSION, fl1, fid1, ci1, cs1, os1, ss1, k1, e1, pl1.length,
            packet_crc32 (packetHeaderPre fid1 ci1 cs1 os1 ss1 k1 e1 fl1 pl1.length
              ++ [0, 0, 0, 0]) 46 pl1⟩, pl1⟩,
         ⟨⟨MAGIC, PACKET_VERSION, fl2, fid2, ci2, cs2, os2, ss2, k2, e2, pl2.length,
            packet_crc32 (packetHeaderPre fid2 ci2 cs2 os2 ss2 k2 e2 fl2 pl2.length
              ++ [0, 0, 0, 0]) 46 pl2⟩, pl2⟩] := by
  set P1 := serialize_packet fid1 ci1 cs1 os1 ss1 k1 e1 fl1 pl1 with hP1
  set P2 := serialize_packet fid2 ci2 cs2 os2 ss2 k2 e2 fl2 pl2 with hP2
  set S := g0 ++ (P1 ++ (g1 ++ (P2 ++ g2))) with hS
  have hL1 : P1.length = 50 + pl1.length := serialize_packet_length _ _ _ _ _ _ _ _ _ hfid1
  have hL2 : P2.length = 50 + pl2.length := serialize_packet_length _ _ _ _ _ _ _ _ _ hfid2
  have hSL : S.length = g0.length + (50 + pl1.length) + g1.length
      + (50 + pl2.length) + g2.length := by
    simp [hS, hL1, hL2]
    omega
  -- positions of the two packets
  set pos1 := g0.length with hpos1
  set off2 := g0.length + (50 + pl1.length) with hoff2
  set pos2 := g0.length + (50 + pl1.length) + g1.length with hpos2
  set off3 := g0.length + (50 + pl1.length) + g1.length + (50 + pl2.length) with hoff3
  -- drop identities
  have hd1 : S.drop pos1 = P1 ++ (g1 ++ (P2 ++ g2)) :=
    drop_prefix_append _ _ _ rfl
  have hd2 : S.drop off2 = g1 ++ (P2 ++ g2) := by
    rw [show S = (g0 ++ P1) ++ (g1 ++ (P2 ++ g2)) from by simp [hS]]
    exact drop_prefix_append _ _ _ (by simp [hL1, hoff2])
  have hd3 : S.drop pos2 = P2 ++ g2 := by
    rw [show S = ((g0 ++ P1) ++ g1) ++ (P2 ++ g2) from by simp [hS]]
    exact drop_prefix_append _ _ _ (by simp [hL1, hpos2]; omega)
  have hd4 : S.drop off3 = g2 := by
    rw [show S = (((g0 ++ P1) ++ g1) ++ P2) ++ g2 from by simp [hS]]
    exact drop_prefix_append _ _ _ (by simp [hL1, hL2, hoff3]; omega)
  -- the two magic occurrences
  have hm1 : magicAt S pos1 := by
    unfold magicAt
    rw [hd1, hP1]
    exact serialize_packet_take4 _ _ _ _ _ _ _ _ _ _
  have hm2 : magicAt S pos2 := by
    unfold magicAt
    rw [hd3, hP2]
    exact serialize_packet_take4 _ _ _ _ _ _ _ _ _ _
  -- find_magic results
  have hfind1 : find_magic (S.drop 0) magicBytes = some pos1 := by
    rw [List.drop_zero]
    apply find_magic_of_first _ _ hm1
    intro j hj hmag
    have hjlen : j < S.length := by
      have := magicAt_le_length hmag
      omega
    rcases hocc j hjlen hmag with h | h
    · omega
    · omega
  have hfind2 : find_magic (S.drop off2) magicBytes = some g1.length := by
    apply find_magic_of_first
    · rw [magicAt_drop]
      exact hm2
    · intro j hj hmag
      rw [magicAt_drop] at hmag
      have hjlen : off2 + j < S.length := by
        have := magicAt_le_length hmag
        omega
      rcases hocc _ hjlen hmag with h | h
      · omega
      · omega
  -- deserialization results
  have hdes1 : deserialize_packet (S.drop (0 + pos1))
      = .ok (⟨⟨MAGIC, PACKET_VERSION, fl1, fid1, ci1, cs1, os1, ss1, k1, e1,
          pl1.length, packet_crc32 (packetHeaderPre fid1 ci1 cs1 os1 ss1 k1 e1 fl1
            pl1.length ++ [0, 0, 0, 0]) 46 pl1⟩, pl1⟩, 50 + pl1.length) := by
    rw [Nat.zero_add, hd1, hP1]
    exact deserialize_serialize_append _ _ _ _ _ _ _ _ _ _
      hfid1 hci1 hcs1 hos1 hss1 hk1 he1 hpl1
  have hdes2 : deserialize_packet (S.drop (off2 + g1.length))
      = .ok (⟨⟨MAGIC, PACKET_VERSION, fl2, fid2, ci2, cs2, os2, ss2, k2, e2,
          pl2.length, packet_crc32 (packetHeaderPre fid2 ci2 cs2 os2 ss2 k2 e2 fl2
            pl2.length ++ [0, 0, 0, 0]) 46 pl2⟩, pl2⟩, 50 + pl2.length) := by
    rw [show off2 + g1.length = pos2 from by rw [hoff2, hpos2], hd3, hP2]
    exact deserialize_serialize_append _ _ _ _ _ _ _ _ _ _
      hfid2 hci2 hcs2 hos2 hss2 hk2 he2 hpl2
  -- guards
  have hg1 : 0 + PACKET_HEADER_SIZE ≤ S.length := by
    rw [hSL]
    show 0 + 50 ≤ _
    omega
  have hg2 : off2 + PACKET_HEADER_SIZE ≤ S.length := by
    rw [hSL, hoff2]
    show _ + 50 ≤ _
    omega
  -- enough fuel for three iterations
  have hfuel : S.length + 1 = (S.length - 2) + 3 := by
    rw [hSL]
    omega
  rw [scan_for_packets, hfuel, scanGo_succ, if_pos hg1]
  simp only [hfind1]
  simp only [hdes1]
  have hstep2 : 0 + pos1 + (50 + pl1.length) = off2 := by
    rw [hpos1, hoff2]
    omega
  rw [hstep2]
  rw [scanGo_succ, if_pos hg2]
  simp only [hfind2]
  simp only [hdes2]
  have hstep3 : off2 + g1.length + (50 + pl2.length) = off3 := by
    rw [hoff2, hoff3]
  rw [hstep3]
  -- third iteration finds nothing
  have hlast : ∀ f, scanGo S (f + 1) off3 = [] := by
    intro f
    rw [scanGo_succ]
    by_cases hg3 : off3 + PACKET_HEADER_SIZE ≤ S.length
    · rw [if_pos hg3]
      rcases hfm : find_magic (S.drop off3) magicBytes with _ | p
      · rfl
      · exfalso
        have hmag := magicAt_of_find_magic hfm
        rw [magicAt_drop] at hmag
        have hjlen : off3 + p < S.length := by
          have := magicAt_le_length hmag
          omega
        rcases hocc _ hjlen hmag with h | h
        · rw [hoff3, hpos1] at h
          omega
        · rw [hoff3] at h
          omega
    · rw [if_neg hg3]
  rw [hlast (S.length - 2)]

/-- A valid 50-byte packet used as "garbage" in the counterexample. -/
def cexP0 : List Nat := serialize_packet demoFileId 0 0 0 64 1 7 0 []

def cexP1 : List Nat := serialize_packet demoFileId 0 0 0 64 1 0 0 []

def cexP2 : List Nat := serialize_packet demoFileId 0 0 0 64 1 1 0 []

lemma serialize_packet_take4' (fid : List Nat) (ci cs os ss k esi fl : Nat)
    (payload : List Nat) :
    (serialize_packet fid ci cs os ss k esi fl payload).take 4 = magicBytes := by
  have h := serialize_packet_take4 fid ci cs os ss k esi fl payload []
  rwa [List.append_nil] at h

/-- Evaluation of the scanner on exactly three concatenated serialized
packets: all three are recovered. -/
lemma scan_three_packets
    (fidA : List Nat) (ciA csA osA ssA kA eA flA : Nat) (plA : List Nat)
    (fidB : List Nat) (ciB csB osB ssB kB eB flB : Nat) (plB : List Nat)
    (fidC : List Nat) (ciC csC osC ssC kC eC flC : Nat) (plC : List Nat)
    (hfidA : fidA.length = FILE_ID_SIZE) (hciA : ciA < 4294967296)
    (hcsA : csA < 4294967296) (hosA : osA < 4294967296) (hssA : ssA < 65536)
    (hkA : kA < 4294967296) (heA : eA < 4294967296) (hplA : plA.length < 65536)
    (hfidB : fidB.length = FILE_ID_SIZE) (hciB : ciB < 4294967296)
    (hcsB : csB < 4294967296) (hosB : osB < 4294967296) (hssB : ssB < 65536)
    (hkB : kB < 4294967296) (heB : eB < 4294967296) (hplB : plB.length < 65536)
    (hfidC : fidC.length = FILE_ID_SIZE) (hciC : ciC < 4294967296)
    (hcsC : csC < 4294967296) (hosC : osC < 4294967296) (hssC : ssC < 65536)
    (hkC : kC < 4294967296) (heC : eC < 4294967296) (hplC : plC.length < 65536) :
    scan_for_packets (serialize_packet fidA ciA csA osA ssA kA eA flA plA ++
        (serialize_packet fidB ciB csB osB ssB kB eB flB plB ++
          serialize_packet fidC ciC csC osC ssC kC eC flC plC))
      = [⟨⟨MAGIC, PACKET_VERSION, flA, fidA, ciA, csA, osA, ssA, kA, eA, plA.length,
            packet_crc32 (packetHeaderPre fidA ciA csA osA ssA kA eA flA plA.length
              ++ [0, 0, 0, 0]) 46 plA⟩, plA⟩,
         ⟨⟨MAGIC, PACKET_VERSION, flB, fidB, ciB, csB, osB, ssB, kB, eB, plB.length,
            packet_crc32 (packetHeaderPre fidB ciB csB osB ssB kB eB flB plB.length
              ++ [0, 0, 0, 0]) 46 plB⟩, plB⟩,
         ⟨⟨MAGIC, PACKET_VERSION, flC, fidC, ciC, csC, osC, ssC, kC, eC, plC.length,
            packet_crc32 (packetHeaderPre fidC ciC csC osC ssC kC eC flC plC.length
              ++ [0, 0, 0, 0]) 46 plC⟩, plC⟩] := by
  set PA := serialize_packet fidA ciA csA osA ssA kA eA flA plA with hPA
  set PB := serialize_packet fidB ciB csB osB ssB kB eB flB plB with hPB
  set PC := serialize_packet fidC ciC csC osC ssC kC eC flC plC with hPC
  set S := PA ++ (PB ++ PC) with hS
  have hLA : PA.length = 50 + plA.length := serialize_packet_length _ _ _ _ _ _ _ _ _ hfidA
  have hLB : PB.length = 50 + plB.length := serialize_packet_length _ _ _ _ _ _ _ _ _ hfidB
  have hLC : PC.length = 50 + plC.length := serialize_packet_length _ _ _ _ _ _ _ _ _ hfidC
  have hSL : S.length = (50 + plA.length) + ((50 + plB.length) + (50 + plC.length)) := by
    simp [hS, hLA, hLB, hLC]
  set o2 := 50 + plA.length with ho2
  set o3 := 50 + plA.length + (50 + plB.length) with ho3
  have hdB : S.drop o2 = PB ++ PC := drop_prefix_append _ _ _ (by rw [hLA])
  have hdC : S.drop o3 = PC := by
    rw [show S = (PA ++ PB) ++ PC from by simp [hS]]
    exact drop_prefix_append _ _ _ (by simp [hLA, hLB, ho3])
  have hfA : find_magic (S.drop 0) magicBytes = some 0 := by
    rw [List.drop_zero]
    apply find_magic_of_first
    · show (S.drop 0).take 4 = magicBytes
      rw [List.drop_zero, hS, hPA]
      exact serialize_packet_take4 _ _ _ _ _ _ _ _ _ _
    · intro j hj
      omega
  have hfB : find_magic (S.drop o2) magicBytes = some 0 := by
    apply find_magic_of_first
    · show ((S.drop o2).drop 0).take 4 = magicBytes
      rw [List.drop_zero, hdB, hPB]
      exact serialize_packet_take4 _ _ _ _ _ _ _ _ _ _
    · intro j hj
      omega
  have hfC : find_magic (S.drop o3) magicBytes = some 0 := by
    apply find_magic_of_first
    · show ((S.drop o3).drop 0).take 4 = magicBytes
      rw [List.drop_zero, hdC, hPC]
      exact serialize_packet_take4' _ _ _ _ _ _ _ _ _
    · intro j hj
      omega
  have hdesA : deserialize_packet (S.drop (0 + 0))
      = .ok (⟨⟨MAGIC, PACKET_VERSION, flA, fidA, ciA, csA, osA, ssA, kA, eA,
          plA.length, packet_crc32 (packetHeaderPre fidA ciA csA osA ssA kA eA flA
            plA.length ++ [0, 0, 0, 0]) 46 plA⟩, plA⟩, 50 + plA.length) := by
    rw [show (0 + 0 : Nat) = 0 from rfl, List.drop_zero, hS, hPA]
    exact deserialize_serialize_append _ _ _ _ _ _ _ _ _ _
      hfidA hciA hcsA hosA hssA hkA heA hplA
  have hdesB : deserialize_packet (S.drop (o2 + 0))
      = .ok (⟨⟨MAGIC, PACKET_VERSION, flB, fidB, ciB, csB, osB, ssB, kB, eB,
          plB.length, packet_crc32 (packetHeaderPre fidB ciB csB osB ssB kB eB flB
            plB.length ++ [0, 0, 0, 0]) 46 plB⟩, plB⟩, 50 + plB.length) := by
    rw [Nat.add_zero, hdB, hPB]
    exact deserialize_serialize_append _ _ _ _ _ _ _ _ _ _
      hfidB hciB hcsB hosB hssB hkB heB hplB
  have hdesC : deserialize_packet (S.drop (o3 + 0))
      = .ok (⟨⟨MAGIC, PACKET_VERSION, flC, fidC, ciC, csC, osC, ssC, kC, eC,
          plC.length, packet_crc32 (packetHeaderPre fidC ciC csC osC ssC kC eC flC
            plC.length ++ [0, 0, 0, 0]) 46 plC⟩, plC⟩, 50 + plC.length) := by
    rw [Nat.add_zero, hdC, hPC]
    have h := deserialize_serialize_append fidC ciC csC osC ssC kC eC flC plC []
      hfidC hciC hcsC hosC hssC hkC heC hplC
    rwa [List.append_nil] at h
  have hg1 : 0 + PACKET_HEADER_SIZE ≤ S.length := by
    rw [hSL]
    show 0 + 50 ≤ _
    omega
  have hg2 : o2 + PACKET_HEADER_SIZE ≤ S.length := by
    rw [hSL, ho2]
    show _ + 50 ≤ _
    omega
  have hg3 : o3 + PACKET_HEADER_SIZE ≤ S.length := by
    rw [hSL, ho3]
    show _ + 50 ≤ _
    omega
  have hfuel : S.length + 1 = (S.length - 3) + 4 := by
    rw [hSL]
    omega
  have hlast : ∀ f, scanGo S (f + 1) (o3 + (50 + plC.length)) = [] := by
    intro f
    rw [scanGo_succ, if_neg (by rw [hSL, ho3]; show ¬ (_ + 50 ≤ _); omega)]
  rw [scan_for_packets, hfuel, scanGo_succ, if_pos hg1]
  simp only [hfA]
  simp only [hdesA]
  rw [show 0 + 0 + (50 + plA.length) = o2 from by rw [ho2]; omega]
  rw [scanGo_succ, if_pos hg2]
  simp only [hfB]
  simp only [hdesB]
  rw [show o2 + 0 + (50 + plB.length) = o3 from by rw [ho2, ho3]; omega]
  rw [scanGo_succ, if_pos hg3]
  simp only [hfC]
  simp only [hdesC]
  rw [show o3 + 0 + (50 + plC.length) = o3 + (50 + plC.length) from by omega]
  rw [hlast (S.length - 3)]

/-- C4 counterexample: with fully arbitrary garbage the claim fails — when the
leading garbage `g0` is itself a valid serialized packet (and `g1 = g2 = []`),
the scanner recovers three packets, not exactly the two packets `p1`, `p2`. -/
theorem magic_resync_cex :
    (scan_for_packets (cexP0 ++ (cexP1 ++ cexP2))).length = 3 ∧
    scan_for_packets (cexP0 ++ (cexP1 ++ cexP2))
      ≠ [⟨⟨MAGIC, PACKET_VERSION, 0, demoFileId, 0, 0, 0, 64, 1, 0, 0,
            packet_crc32 (packetHeaderPre demoFileId 0 0 0 64 1 0 0 0
              ++ [0, 0, 0, 0]) 46 []⟩, []⟩,
          ⟨⟨MAGIC, PACKET_VERSION, 0, demoFileId, 0, 0, 0, 64, 1, 1, 0,
            packet_crc32 (packetHeaderPre demoFileId 0 0 0 64 1 1 0 0
              ++ [0, 0, 0, 0]) 46 []⟩, []⟩] := by
  have h : scan_for_packets (cexP0 ++ (cexP1 ++ cexP2))
      = [⟨⟨MAGIC, PACKET_VERSION, 0, demoFileId, 0, 0, 0, 64, 1, 7, 0,
            packet_crc32 (packetHeaderPre demoFileId 0 0 0 64 1 7 0 0
              ++ [0, 0, 0, 0]) 46 []⟩, []⟩,
          ⟨⟨MAGIC, PACKET_VERSION, 0, demoFileId, 0, 0, 0, 64, 1, 0, 0,
            packet_crc32 (packetHeaderPre demoFileId 0 0 0 64 1 0 0 0
              ++ [0, 0, 0, 0]) 46 []⟩, []⟩,
          ⟨⟨MAGIC, PACKET_VERSION, 0, demoFileId, 0, 0, 0, 64, 1, 1, 0,
            packet_crc32 (packetHeaderPre demoFileId 0 0 0 64 1 1 0 0
              ++ [0, 0, 0, 0]) 46 []⟩, []⟩] :=
    scan_three_packets demoFileId 0 0 0 64 1 7 0 [] demoFileId 0 0 0 64 1 0 0 []
      demoFileId 0 0 0 64 1 1 0 []
      (by decide) (by decide) (by decide) (by decide) (by decide) (by decide)
      (by decide) (by decide) (by decide) (by decide) (by decide) (by decide)
      (by decide) (by decide) (by decide) (by decide) (by decide) (by decide)
      (by decide) (by decide) (by decide) (by decide) (by decide) (by decide)
  constructor
  · rw [h]
    rfl
  · rw [h]
    intro heq
    have hlen := congrArg List.length heq
    simp at hlen

/-! The concrete two-packet stream for the amended-C4 witness.  The packets'
byte values (in particular their CRC fields) are established through staged
CRC computations, each small enough to evaluate, so the magic-occurrence
hypothesis can be checked on a literal byte string. -/

def cexG0 : List Nat := [1, 2, 3]

def cexG2 : List Nat := [0, 0]

lemma crcFold_append (s : Nat) (a b : List Nat) :
    crcFold s (a ++ b) = crcFold (crcFold s a) b := by
  simp [crcFold, List.foldl_append]

set_option maxRecDepth 8000 in
/-- Literal bytes of `cexP1` (CRC computed in verified stages). -/
lemma cexP1_bytes : cexP1 =
    [51, 83, 84, 89, 2, 0, 0, 1, 2, 3, 4, 5, 6, 7, 8, 9, 10, 11, 12, 13, 14,
     15, 0, 0, 0, 0, 0, 0, 0, 0, 0, 0, 0, 0, 64, 0, 1, 0, 0, 0, 0, 0, 0, 0,
     0, 0, 173, 170, 36, 94] := by
  have hcrc : packet_crc32 (packetHeaderPre demoFileId 0 0 0 64 1 0 0 0
      ++ [0, 0, 0, 0]) 46 [] = 1579461293 := by
    have h2 : ((packetHeaderPre demoFileId 0 0 0 64 1 0 0 0) ++ [0, 0, 0, 0]).take 46
        = [51, 83, 84, 89, 2, 0, 0, 1, 2, 3, 4, 5, 6, 7, 8, 9] ++
          ([10, 11, 12, 13, 14, 15, 0, 0, 0, 0, 0, 0, 0, 0, 0, 0] ++
           [0, 0, 64, 0, 1, 0, 0, 0, 0, 0, 0, 0, 0, 0]) := by decide
    have h3 : ¬ (46 + 4 <
        ((packetHeaderPre demoFileId 0 0 0 64 1 0 0 0) ++ [0, 0, 0, 0]).length) := by
      decide
    simp only [packet_crc32, h2, if_neg h3]
    rw [crcFold_append, crcFold_append]
    rw [show crcFold CRC_INIT
      [51, 83, 84, 89, 2, 0, 0, 1, 2, 3, 4, 5, 6, 7, 8, 9] = 3688416031 from by decide]
    rw [show crcFold 3688416031
      [10, 11, 12, 13, 14, 15, 0, 0, 0, 0, 0, 0, 0, 0, 0, 0] = 3396086720 from by decide]
    rw [show crcFold 3396086720
      [0, 0, 64, 0, 1, 0, 0, 0, 0, 0, 0, 0, 0, 0] = 499386636 from by decide]
    decide
  show serialize_packet demoFileId 0 0 0 64 1 0 0 [] = _
  simp only [serialize_packet, List.length_nil, Nat.zero_mod]
  rw [hcrc]
  decide

set_option maxRecDepth 8000 in
/-- Literal bytes of `cexP2` (CRC computed in verified stages). -/
lemma cexP2_bytes : cexP2 =
    [51, 83, 84, 89, 2, 0, 0, 1, 2, 3, 4, 5, 6, 7, 8, 9, 10, 11, 12, 13, 14,
     15, 0, 0, 0, 0, 0, 0, 0, 0, 0, 0, 0, 0, 64, 0, 1, 0, 0, 0, 1, 0, 0, 0,
     0, 0, 202, 10, 180, 222] := by
  have hcrc : packet_crc32 (packetHeaderPre demoFileId 0 0 0 64 1 1 0 0
      ++ [0, 0, 0, 0]) 46 [] = 3736341194 := by
    have h2 : ((packetHeaderPre demoFileId 0 0 0 64 1 1 0 0) ++ [0, 0, 0, 0]).take 46
        = [51, 83, 84, 89, 2, 0, 0, 1, 2, 3, 4, 5, 6, 7, 8, 9] ++
          ([10, 11, 12, 13, 14, 15, 0, 0, 0, 0, 0, 0, 0, 0, 0, 0] ++
           [0, 0, 64, 0, 1, 0, 0, 0, 1, 0, 0, 0, 0, 0]) := by decide
    have h3 : ¬ (46 + 4 <
        ((packetHeaderPre demoFileId 0 0 0 64 1 1 0 0) ++ [0, 0, 0, 0]).length) := by
      decide
    simp only [packet_crc32, h2, if_neg h3]
    rw [crcFold_append, crcFold_append]
    rw [show crcFold CRC_INIT
      [51, 83, 84, 89, 2, 0, 0, 1, 2, 3, 4, 5, 6, 7, 8, 9] = 3688416031 from by decide]
    rw [show crcFold 3688416031
      [10, 11, 12, 13, 14, 15, 0, 0, 0, 0, 0, 0, 0, 0, 0, 0] = 3396086720 from by decide]
    rw [show crcFold 3396086720
      [0, 0, 64, 0, 1, 0, 0, 0, 1, 0, 0, 0, 0, 0] = 116130932 from by decide]
    decide
  show serialize_packet demoFileId 0 0 0 64 1 1 0 [] = _
  simp only [serialize_packet, List.length_nil, Nat.zero_mod]
  rw [hcrc]
  decide

def cexStream : List Nat := cexG0 ++ (cexP1 ++ ([] ++ (cexP2 ++ cexG2)))

/-- Literal bytes of the witness stream. -/
lemma cexStream_bytes : cexStream =
    [1, 2, 3] ++
    ([51, 83, 84, 89, 2, 0, 0, 1, 2, 3, 4, 5, 6, 7, 8, 9, 10, 11, 12, 13, 14,
      15, 0, 0, 0, 0, 0, 0, 0, 0, 0, 0, 0, 0, 64, 0, 1, 0, 0, 0, 0, 0, 0, 0,
      0, 0, 173, 170, 36, 94] ++
     ([] ++
      ([51, 83, 84, 89, 2, 0, 0, 1, 2, 3, 4, 5, 6, 7, 8, 9, 10, 11, 12, 13, 14,
        15, 0, 0, 0, 0, 0, 0, 0, 0, 0, 0, 0, 0, 64, 0, 1, 0, 0, 0, 1, 0, 0, 0,
        0, 0, 202, 10, 180, 222] ++ [0, 0]))) := by
  rw [cexStream, cexP1_bytes, cexP2_bytes]
  rfl

/-- No spurious magic: in the literal witness stream the magic occurs only at
positions 3 (first packet) and 53 (second packet). -/
lemma cexStream_occ : ∀ i, i < cexStream.length → magicAt cexStream i →
    i = cexG0.length ∨ i = cexG0.length + (50 + List.length ([] : List Nat))
      + List.length ([] : List Nat) := by
  have hocc : ∀ i, i <
      ([1, 2, 3] ++
       ([51, 83, 84, 89, 2, 0, 0, 1, 2, 3, 4, 5, 6, 7, 8, 9, 10, 11, 12, 13, 14,
         15, 0, 0, 0, 0, 0, 0, 0, 0, 0, 0, 0, 0, 64, 0, 1, 0, 0, 0, 0, 0, 0, 0,
         0, 0, 173, 170, 36, 94] ++
        ([] ++
         ([51, 83, 84, 89, 2, 0, 0, 1, 2, 3, 4, 5, 6, 7, 8, 9, 10, 11, 12, 13, 14,
           15, 0, 0, 0, 0, 0, 0, 0, 0, 0, 0, 0, 0, 64, 0, 1, 0, 0, 0, 1, 0, 0, 0,
           0, 0, 202, 10, 180, 222] ++ [0, 0]))) : List Nat).length →
      magicAt
      ([1, 2, 3] ++
       ([51, 83, 84, 89, 2, 0, 0, 1, 2, 3, 4, 5, 6, 7, 8, 9, 10, 11, 12, 13, 14,
         15, 0, 0, 0, 0, 0, 0, 0, 0, 0, 0, 0, 0, 64, 0, 1, 0, 0, 0, 0, 0, 0, 0,
         0, 0, 173, 170, 36, 94] ++
        ([] ++
         ([51, 83, 84, 89, 2, 0, 0, 1, 2, 3, 4, 5, 6, 7, 8, 9, 10, 11, 12, 13, 14,
           15, 0, 0, 0, 0, 0, 0, 0, 0, 0, 0, 0, 0, 64, 0, 1, 0, 0, 0, 1, 0, 0, 0,
           0, 0, 202, 10, 180, 222] ++ [0, 0])))) i →
      i = 3 ∨ i = 53 := by decide
  intro i hi hm
  rw [cexStream_bytes] at hi hm
  exact hocc i hi hm

set_option maxRecDepth 2000 in
/-- Witness for the amended C4: concrete garbage free of spurious magic
occurrences around two concrete packets. -/
theorem magic_resync_witness :
    (∀ i, i < cexStream.length → magicAt cexStream i →
        i = cexG0.length ∨ i = cexG0.length + (50 + List.length ([] : List Nat))
          + List.length ([] : List Nat)) ∧
    scan_for_packets cexStream
      = [⟨⟨MAGIC, PACKET_VERSION, 0, demoFileId, 0, 0, 0, 64, 1, 0, 0,
            packet_crc32 (packetHeaderPre demoFileId 0 0 0 64 1 0 0 0
              ++ [0, 0, 0, 0]) 46 []⟩, []⟩,
         ⟨⟨MAGIC, PACKET_VERSION, 0, demoFileId, 0, 0, 0, 64, 1, 1, 0,
            packet_crc32 (packetHeaderPre demoFileId 0 0 0 64 1 1 0 0
              ++ [0, 0, 0, 0]) 46 []⟩, []⟩] := by
  constructor
  · exact cexStream_occ
  · exact magic_resync_two_packets demoFileId 0 0 0 64 1 0 0 []
      demoFileId 0 0 0 64 1 1 0 [] cexG0 [] cexG2
      (by decide) (by decide) (by decide) (by decide) (by decide) (by decide)
      (by decide) (by decide) (by decide) (by decide) (by decide) (by decide)
      (by decide) (by decide) (by decide) (by decide) cexStream_occ

/-! ### C2: chunker (src/chunker/mod.rs, chunk_bytes) -/

structure Chunk where
  index : Nat
  data : List Nat
  is_last : Bool
  deriving DecidableEq

/-- `chunker::chunk_bytes`.  Rust's `data.chunks(chunk_size)` yields
`⌈len/chunk_size⌉` slices (for `chunk_size > 0`; it panics on 0), the `i`-th
being `data[i*chunk_size .. min((i+1)*chunk_size, len)]`; `enumerate` supplies
the usize counter `i`, stored into the u32 `index` field by the wrapping cast
`i as u32` (so modulo `2^32`), while `is_last` compares the unwrapped usize
`i` with `num_chunks - 1`. -/
def chunk_bytes (data : List Nat) (chunk_size : Nat) : List Chunk :=
  if data.isEmpty then [⟨0, [], true⟩]
  else
    let numChunks := (data.length + chunk_size - 1) / chunk_size
    (List.range numChunks).map
      (fun i => ⟨i % 4294967296, (data.drop (i * chunk_size)).take chunk_size,
        i == numChunks - 1⟩)

/-- Concatenating the `⌈len/cs⌉` consecutive `cs`-sized slices of a list
reproduces the list (stated for any `n` covering the list). -/
lemma join_slices (cs : Nat) : ∀ (n : Nat) (l : List Nat), l.length ≤ n * cs →
    ((List.range n).map (fun i => (l.drop (i * cs)).take cs)).flatten = l := by
  intro n
  induction n with
  | zero =>
    intro l hl
    simp at hl
    simp [hl]
  | succ m ih =>
    intro l hl
    rw [List.range_succ_eq_map]
    simp only [List.map_cons, List.map_map, List.flatten_cons, Nat.zero_mul,
      List.drop_zero]
    have hcomp : ((fun i => (l.drop (i * cs)).take cs) ∘ (· + 1))
        = fun i => ((l.drop cs).drop (i * cs)).take cs := by
      funext i
      simp only [Function.comp_apply]
      rw [List.drop_drop]
      congr 1
      ring_nf
    have hl' : (l.drop cs).length ≤ m * cs := by
      simp only [List.length_drop]
      have hmul : (m + 1) * cs = m * cs + cs := by ring
      omega
    rw [hcomp, ih (l.drop cs) hl']
    exact List.take_append_drop cs l

lemma numChunks_mul_ge (len cs : Nat) (hcs : 0 < cs) :
    len ≤ ((len + cs - 1) / cs) * cs := by
  have h := Nat.div_add_mod (len + cs - 1) cs
  have h2 : (len + cs - 1) % cs < cs := Nat.mod_lt _ hcs
  have h3 : cs * ((len + cs - 1) / cs) = ((len + cs - 1) / cs) * cs :=
    Nat.mul_comm _ _
  omega

lemma numChunks_pred_mul_lt (len cs : Nat) (hcs : 0 < cs) (hlen : 0 < len) :
    (((len + cs - 1) / cs) - 1) * cs < len := by
  have h := Nat.div_add_mod (len + cs - 1) cs
  have h2 : (len + cs - 1) % cs < cs := Nat.mod_lt _ hcs
  have h3 : cs * ((len + cs - 1) / cs) = ((len + cs - 1) / cs) * cs :=
    Nat.mul_comm _ _
  have h4 : (((len + cs - 1) / cs) - 1) * cs = ((len + cs - 1) / cs) * cs - cs :=
    Nat.sub_mul _ 1 cs ▸ by rw [Nat.one_mul]
  omega

/-- C2 (amended): for every input and every chunk size > 0, `chunk_bytes`
emits at least one chunk; chunk `i` carries index `i % 2^32` (the wrapping
`i as u32` cast), hence indices are strictly increasing from 0 exactly while
the chunk count stays within `2^32`; empty input yields exactly one empty
last chunk; a chunk is flagged last exactly when it is the one of highest
position; every non-last chunk holds exactly `chunk_size` bytes; and the
concatenation of all chunk data in emission order is the input. -/
theorem chunker_guarantees (data : List Nat) (cs : Nat) (hcs : 0 < cs) :
    chunk_bytes data cs ≠ []
    ∧ (∀ i (h : i < (chunk_bytes data cs).length),
        ((chunk_bytes data cs).get ⟨i, h⟩).index = i % 4294967296)
    ∧ (∀ i (h : i < (chunk_bytes data cs).length), i < 4294967296 →
        ((chunk_bytes data cs).get ⟨i, h⟩).index = i)
    ∧ (data = [] → chunk_bytes data cs = [⟨0, [], true⟩])
    ∧ (∀ i (h : i < (chunk_bytes data cs).length),
        (((chunk_bytes data cs).get ⟨i, h⟩).is_last = true
          ↔ i = (chunk_bytes data cs).length - 1))
    ∧ (∀ i (h : i < (chunk_bytes data cs).length),
        i ≠ (chunk_bytes data cs).length - 1 →
        ((chunk_bytes data cs).get ⟨i, h⟩).data.length = cs)
    ∧ ((chunk_bytes data cs).map Chunk.data).flatten = data := by
  by_cases hd : data = []
  · subst hd
    refine ⟨by simp [chunk_bytes], ?_, ?_, fun _ => by simp [chunk_bytes],
      ?_, ?_, ?_⟩
    · intro i h
      simp [chunk_bytes] at h ⊢
      omega
    · intro i h _
      simp [chunk_bytes] at h ⊢
      omega
    · intro i h
      simp [chunk_bytes] at h ⊢
      omega
    · intro i h hne
      exfalso
      apply hne
      simp [chunk_bytes] at h ⊢
      omega
    · simp [chunk_bytes]
  · have hlen : 0 < data.length := List.length_pos.mpr hd
    have hne : ¬ data.isEmpty := by simpa [List.isEmpty_iff]
    set n := (data.length + cs - 1) / cs with hn
    have hcb : chunk_bytes data cs = (List.range n).map
        (fun i => ⟨i % 4294967296, (data.drop (i * cs)).take cs, i == n - 1⟩) := by
      rw [chunk_bytes, if_neg hne]
    have hlen2 : (chunk_bytes data cs).length = n := by simp [hcb]
    have hn1 : 1 ≤ n := by
      rw [hn]
      have : cs ≤ data.length + cs - 1 := by omega
      exact Nat.le_div_iff_mul_le hcs |>.mpr (by omega)
    have hget : ∀ i (h : i < (chunk_bytes data cs).length),
        (chunk_bytes data cs).get ⟨i, h⟩
          = ⟨i % 4294967296, (data.drop (i * cs)).take cs, i == n - 1⟩ := by
      intro i h
      simp [hcb]
    refine ⟨?_, ?_, ?_, fun habs => absurd habs hd, ?_, ?_, ?_⟩
    · intro habs
      have := congrArg List.length habs
      rw [hlen2] at this
      simp at this
      omega
    · intro i h
      rw [hget i h]
    · intro i h hlt
      rw [hget i h]
      exact Nat.mod_eq_of_lt hlt
    · intro i h
      rw [hget i h, hlen2]
      simp
    · intro i h hne'
      rw [hlen2] at h hne'
      rw [hget i _]
      have hi1 : i + 1 ≤ n - 1 := by omega
      have hmul : (i + 1) * cs ≤ (n - 1) * cs := Nat.mul_le_mul_right cs hi1
      have hlast := numChunks_pred_mul_lt data.length cs hcs hlen
      rw [← hn] at hlast
      have : i * cs + cs ≤ data.length := by
        have hexp : (i + 1) * cs = i * cs + cs := by ring
        omega
      simp only [List.length_take, List.length_drop]
      omega
    · rw [hcb]
      have hmap : ((List.range n).map
          (fun i => (⟨i % 4294967296, (data.drop (i * cs)).take cs,
            i == n - 1⟩ : Chunk))).map Chunk.data
          = (List.range n).map (fun i => (data.drop (i * cs)).take cs) := by
        rw [List.map_map]
        rfl
      rw [hmap]
      apply join_slices cs n data
      have := numChunks_mul_ge data.length cs hcs
      rw [← hn] at this
      exact this

/-- Witness for C2 at the spec's 2500-byte / chunk-size-1000 scenario shape
(scaled down: 5 bytes, chunk size 2). -/
theorem chunker_guarantees_witness :
    (0 : Nat) < 2 ∧
    ((chunk_bytes [1, 2, 3, 4, 5] 2).map Chunk.data).flatten = [1, 2, 3, 4, 5] :=
  ⟨by decide, (chunker_guarantees [1, 2, 3, 4, 5] 2 (by decide)).2.2.2.2.2.2⟩

/-- C2 counterexample to the unamended claim: on a `2^32 + 1`-byte input with
chunk size 1 the chunker emits `2^32 + 1` chunks, and the wrapping `i as u32`
cast gives the chunk at position `2^32` the index `0` — the same index as the
first chunk, at a strictly later position — so the emitted indices are not
strictly increasing. -/
theorem chunker_index_wrap_cex :
    ((chunk_bytes (List.replicate 4294967297 0) 1)[0]?).map Chunk.index = some 0
    ∧ ((chunk_bytes (List.replicate 4294967297 0) 1)[4294967296]?).map
        Chunk.index = some 0
    ∧ (0 : Nat) < 4294967296 := by
  have hd : (List.replicate 4294967297 (0 : Nat)) ≠ [] := by
    intro h
    have h2 := congrArg List.length h
    rw [List.length_replicate, List.length_nil] at h2
    exact absurd h2 (by norm_num)
  have hne2 : ¬ (List.replicate 4294967297 (0 : Nat)).isEmpty = true :=
    fun habs => hd (List.isEmpty_iff.mp habs)
  have hnum : ((List.replicate 4294967297 (0 : Nat)).length + 1 - 1) / 1
      = 4294967297 := by
    rw [List.length_replicate]
  have hcb : chunk_bytes (List.replicate 4294967297 0) 1
      = (List.range 4294967297).map
        (fun i => ⟨i % 4294967296,
          ((List.replicate 4294967297 (0 : Nat)).drop (i * 1)).take 1,
          i == 4294967297 - 1⟩) := by
    rw [chunk_bytes, if_neg hne2, hnum]
  refine ⟨?_, ?_, by norm_num⟩
  · rw [hcb, List.getElem?_map,
      List.getElem?_range (by norm_num : (0 : Nat) < 4294967297),
      Option.map_some', Option.map_some']
  · rw [hcb, List.getElem?_map,
      List.getElem?_range (by norm_num : (4294967296 : Nat) < 4294967297),
      Option.map_some', Option.map_some']

/-! ### C3: frame-level bit embedding / extraction
(src/video/encoder.rs render_frame, src/video/decoder.rs extract_frame)

The 8x8-block layer (`DctTables::embed_blocks` / `DctTables::extract_bit`) is
computed with IEEE-754 doubles in the source, so it is abstracted here as a
block codec; the two facts the frame layer relies on — extracting an embedded
pattern returns the embedded bit, and an untouched mid-gray block extracts
to 0 — are hypotheses of the round-trip theorem, discharged by a concrete
codec in the witness. -/

structure BlockCodec where
  embed_blocks : Bool → Fin 64 → Nat
  extract_bit : (Fin 64 → Nat) → Bool

/-- `(data[bit_index / 8] >> (7 - bit_index % 8)) & 1` — MSB-first bit of the
byte stream. -/
def bit_of_data (data : List Nat) (bitIndex : Nat) : Bool :=
  (data.getD (bitIndex / 8) 0).testBit (7 - bitIndex % 8)

/-- `VideoEncoder::render_frame`, as a pixel function: pixels start at
mid-gray 128; the 8x8 block with row-major index `bi` is overwritten with the
embed pattern of data bit `bi` exactly when `bi < data.len() * 8`; inside a
block, pixel `(row, col)` holds pattern cell `row * 8 + col`. -/
def render_frame (codec : BlockCodec) (w : Nat) (data : List Nat) : Nat → Nat :=
  fun p =>
    if (p / w / 8) * (w / 8) + p % w / 8 < data.length * 8 then
      codec.embed_blocks (bit_of_data data ((p / w / 8) * (w / 8) + p % w / 8))
        ⟨(p / w % 8) * 8 + p % w % 8, by omega⟩
    else 128

/-- The 8x8 block copied out of a frame at block coordinates `(by_, bx)`:
cell `i` (= row*8+col) is pixel `(by_*8 + row) * w + bx*8 + col`. -/
def block_at (pixels : Nat → Nat) (w : Nat) (by_ bx : Nat) : Fin 64 → Nat :=
  fun i => pixels ((by_ * 8 + i.val / 8) * w + (bx * 8 + i.val % 8))

/-- `data[byte_idx] |= bit << (7 - t)` over the 8 bits of one output byte. -/
def pack_byte_msb (f : Nat → Bool) : Nat :=
  (List.range 8).foldl (fun acc t => acc + (if f t then 2 ^ (7 - t) else 0)) 0

/-- `VideoDecoder::extract_frame`: bytes `0 .. blocks/8` are assembled from
block bits in row-major order, MSB first; the result is truncated to
`bytes_per_frame`. -/
def extract_frame (codec : BlockCodec) (w h : Nat) (pixels : Nat → Nat) :
    List Nat :=
  ((List.range ((w / 8) * (h / 8) / 8)).map (fun j =>
    pack_byte_msb (fun t =>
      codec.extract_bit
        (block_at pixels w ((8 * j + t) / (w / 8)) ((8 * j + t) % (w / 8)))))).take
    (bytes_per_frame w h 1)

lemma pack_byte_msb_eval (f : Nat → Bool) :
    pack_byte_msb f = ((((((((0 + (if f 0 then 128 else 0)) + (if f 1 then 64 else 0))
      + (if f 2 then 32 else 0)) + (if f 3 then 16 else 0)) + (if f 4 then 8 else 0))
      + (if f 5 then 4 else 0)) + (if f 6 then 2 else 0)) + (if f 7 then 1 else 0)) := by
  unfold pack_byte_msb
  rw [show List.range 8 = [0, 1, 2, 3, 4, 5, 6, 7] from by decide]
  norm_num

lemma pack_byte_msb_congr (f g : Nat → Bool) (h : ∀ t, t < 8 → f t = g t) :
    pack_byte_msb f = pack_byte_msb g := by
  rw [pack_byte_msb_eval f, pack_byte_msb_eval g, h 0 (by norm_num),
    h 1 (by norm_num), h 2 (by norm_num), h 3 (by norm_num), h 4 (by norm_num),
    h 5 (by norm_num), h 6 (by norm_num), h 7 (by norm_num)]

set_option maxRecDepth 8000 in
lemma pack_byte_testBit (b : Nat) (hb : b < 256) :
    pack_byte_msb (fun t => b.testBit (7 - t)) = b := by
  have h : ∀ x, x < 256 → pack_byte_msb (fun t => x.testBit (7 - t)) = x := by decide
  exact h b hb

lemma pack_byte_false : pack_byte_msb (fun _ => false) = 0 := by decide

/-- Reading block `(n / bx0, n % bx0)` out of a rendered frame yields the
embed pattern of bit `n` when `n` is within the data bits, and the all-128
block otherwise. -/
lemma block_at_render (codec : BlockCodec) (bx0 : Nat) (hbx : 0 < bx0)
    (data : List Nat) (n : Nat) :
    block_at (render_frame codec (8 * bx0) data) (8 * bx0) (n / bx0) (n % bx0)
      = if n < data.length * 8 then codec.embed_blocks (bit_of_data data n)
        else (fun _ => 128) := by
  funext i
  obtain ⟨iv, hiv⟩ := i
  show render_frame codec (8 * bx0) data
      ((n / bx0 * 8 + iv / 8) * (8 * bx0) + (n % bx0 * 8 + iv % 8))
    = _
  have hbxlt : n % bx0 < bx0 := Nat.mod_lt _ hbx
  have hrem : n % bx0 * 8 + iv % 8 < 8 * bx0 := by omega
  have heq : (n / bx0 * 8 + iv / 8) * (8 * bx0) + (n % bx0 * 8 + iv % 8)
      = 8 * bx0 * (n / bx0 * 8 + iv / 8) + (n % bx0 * 8 + iv % 8) := by ring
  have hy : ((n / bx0 * 8 + iv / 8) * (8 * bx0) + (n % bx0 * 8 + iv % 8)) / (8 * bx0)
      = n / bx0 * 8 + iv / 8 := by
    rw [heq, Nat.mul_add_div (by omega), Nat.div_eq_of_lt hrem]
    omega
  have hx : ((n / bx0 * 8 + iv / 8) * (8 * bx0) + (n % bx0 * 8 + iv % 8)) % (8 * bx0)
      = n % bx0 * 8 + iv % 8 := by
    rw [heq, Nat.mul_add_mod]
    exact Nat.mod_eq_of_lt hrem
  unfold render_frame
  have hn : n / bx0 * bx0 + n % bx0 = n := by
    rw [Nat.mul_comm]
    exact Nat.div_add_mod n bx0
  have hcell : iv / 8 * 8 + iv % 8 = iv := by omega
  simp only [hy, hx, show (8 * bx0) / 8 = bx0 from by omega,
    show (n / bx0 * 8 + iv / 8) / 8 = n / bx0 from by omega,
    show (n % bx0 * 8 + iv % 8) / 8 = n % bx0 from by omega,
    show (n / bx0 * 8 + iv / 8) % 8 = iv / 8 from by omega,
    show (n % bx0 * 8 + iv % 8) % 8 = iv % 8 from by omega,
    hn, hcell]
  by_cases hcond : n < data.length * 8
  · simp [hcond]
  · simp [hcond]

/-- C3: for frame dimensions that are positive multiples of 8, one bit per
block, and data of at most `bytes_per_frame` bytes, extracting a rendered
frame returns the data right-padded with zero bytes to `bytes_per_frame`,
for every block codec that inverts its own patterns and reads mid-gray as 0. -/
theorem frame_roundtrip (codec : BlockCodec) (bx0 by0 : Nat)
    (hbx : 0 < bx0) (_hby : 0 < by0) (data : List Nat)
    (hlen : data.length ≤ bytes_per_frame (8 * bx0) (8 * by0) 1)
    (hbytes : ∀ b ∈ data, b < 256)
    (hembed : ∀ b, codec.extract_bit (codec.embed_blocks b) = b)
    (hgray : codec.extract_bit (fun _ => 128) = false) :
    extract_frame codec (8 * bx0) (8 * by0) (render_frame codec (8 * bx0) data)
      = data ++ List.replicate
          (bytes_per_frame (8 * bx0) (8 * by0) 1 - data.length) 0 := by
  have hbpf : bytes_per_frame (8 * bx0) (8 * by0) 1 = bx0 * by0 / 8 := by
    simp [bytes_per_frame, blocks_per_frame, BLOCK_SIZE,
      Nat.mul_div_cancel_left _ (by norm_num : (0:Nat) < 8)]
  set tB := bx0 * by0 / 8 with htB
  rw [hbpf] at hlen ⊢
  have hunfold : extract_frame codec (8 * bx0) (8 * by0)
        (render_frame codec (8 * bx0) data)
      = (List.range tB).map (fun j => pack_byte_msb (fun t =>
          codec.extract_bit (block_at (render_frame codec (8 * bx0) data)
            (8 * bx0) ((8 * j + t) / bx0) ((8 * j + t) % bx0)))) := by
    unfold extract_frame
    rw [show (8 * bx0) / 8 = bx0 from by omega,
      show (8 * by0) / 8 = by0 from by omega, hbpf, ← htB]
    exact List.take_of_length_le (by simp)
  rw [hunfold]
  have hbyte : ∀ j, j < tB → pack_byte_msb (fun t =>
      codec.extract_bit (block_at (render_frame codec (8 * bx0) data)
        (8 * bx0) ((8 * j + t) / bx0) ((8 * j + t) % bx0)))
      = if j < data.length then data.getD j 0 else 0 := by
    intro j hj
    by_cases hcase : j < data.length
    · have hblk : ∀ t, t < 8 → codec.extract_bit
          (block_at (render_frame codec (8 * bx0) data) (8 * bx0)
            ((8 * j + t) / bx0) ((8 * j + t) % bx0))
          = (data.getD j 0).testBit (7 - t) := by
        intro t ht
        rw [block_at_render codec bx0 hbx data (8 * j + t)]
        have hn : 8 * j + t < data.length * 8 := by omega
        rw [if_pos hn, hembed]
        unfold bit_of_data
        rw [show (8 * j + t) / 8 = j from by omega,
          show (8 * j + t) % 8 = t from by omega]
      rw [pack_byte_msb_congr _ (fun t => (data.getD j 0).testBit (7 - t)) hblk,
        pack_byte_testBit _ (getD_lt_of_forall data j hcase hbytes), if_pos hcase]
    · have hblk : ∀ t, t < 8 → codec.extract_bit
          (block_at (render_frame codec (8 * bx0) data) (8 * bx0)
            ((8 * j + t) / bx0) ((8 * j + t) % bx0))
          = (fun _ => false) t := by
        intro t ht
        rw [block_at_render codec bx0 hbx data (8 * j + t)]
        have hn : ¬ (8 * j + t < data.length * 8) := by omega
        rw [if_neg hn, hgray]
      rw [pack_byte_msb_congr _ (fun _ => false) hblk, pack_byte_false,
        if_neg hcase]
  apply List.ext_getElem
  · simp
    omega
  · intro j h1 h2
    rw [List.getElem_map, List.getElem_range]
    have hj : j < tB := by simpa using h1
    rw [hbyte j hj]
    by_cases hcase : j < data.length
    · rw [if_pos hcase, List.getElem_append_left hcase]
      simp [List.getD_eq_getElem?_getD, List.getElem?_eq_getElem hcase]
    · rw [if_neg hcase]
      rw [List.getElem_append_right (by omega)]
      simp

/-- A concrete block codec satisfying the two block-layer hypotheses, for the
witness. -/
def demoCodec : BlockCodec where
  embed_blocks := fun b _ => if b then 200 else 50
  extract_bit := fun blk => 128 < blk ⟨0, by omega⟩

/-- Witness for C3: 64x8 frame (8 blocks, 1 byte per frame), one data byte. -/
theorem frame_roundtrip_witness :
    (∀ b, demoCodec.extract_bit (demoCodec.embed_blocks b) = b) ∧
    extract_frame demoCodec (8 * 8) (8 * 1)
        (render_frame demoCodec (8 * 8) [0xA5])
      = [0xA5] ++ List.replicate (bytes_per_frame (8 * 8) (8 * 1) 1 - 1) 0 :=
  ⟨by decide, frame_roundtrip demoCodec 8 1 (by decide) (by decide) [0xA5]
    (by decide) (by decide) (by decide) (by decide)⟩

/-! ### C6/C7: crypto chunk framing (src/crypto/mod.rs)

The XChaCha20-Poly1305 cipher is the external `chacha20poly1305` crate, not
repository code; it is abstracted as an AEAD whose contract (ciphertext is
plaintext length + 16 tag bytes; decrypt inverts encrypt under the same key
and nonce; decrypt rejects inputs shorter than the 16-byte tag) appears as
hypotheses, discharged by a concrete instance in the witnesses. -/

inductive CryptoError where
  | keyDerivation (msg : String)
  | encryption (msg : String)
  | decryption (msg : String)
  deriving DecidableEq

structure Aead where
  enc : List Nat → List Nat → List Nat → List Nat
  dec : List Nat → List Nat → List Nat → Option (List Nat)

/-- `crypto::build_nonce`: file_id(16) ++ chunk_index_LE(4) ++ zero(4). -/
def build_nonce (file_id : List Nat) (chunk_index : Nat) : List Nat :=
  file_id ++ writeU32LE chunk_index ++ [0, 0, 0, 0]

/-- `crypto::encrypt_chunk`: plaintext_len as u32, little-endian, then the
AEAD ciphertext (the crate's encrypt does not fail for any input modelled
here, so the result is always `ok`). -/
def encrypt_chunk (A : Aead) (key file_id : List Nat) (chunk_index : Nat)
    (plaintext : List Nat) : Except CryptoError (List Nat) :=
  .ok (writeU32LE plaintext.length ++
    A.enc key (build_nonce file_id chunk_index) plaintext)

/-- `crypto::decrypt_chunk`: rejects inputs shorter than the 4-byte length
header, then hands `encrypted[4..]` to the AEAD (the u32 header read cannot
fail once the length check passed). -/
def decrypt_chunk (A : Aead) (key file_id : List Nat) (chunk_index : Nat)
    (encrypted : List Nat) : Except CryptoError (List Nat) :=
  if encrypted.length < ENCRYPTED_HEADER_SIZE then
    .error (.decryption ("data too short"))
  else
    match A.dec key (build_nonce file_id chunk_index) (encrypted.drop 4) with
    | some plaintext => .ok plaintext
    | none => .error (.decryption ("decryption failed"))

/-- C6: sealing produces the 4-byte LE plaintext length followed by the
ciphertext-plus-tag (total = plaintext length + 20), and opening that output
with the same key, file_id and chunk_index returns the plaintext — for every
AEAD satisfying the crate's contract. -/
theorem seal_open_roundtrip (A : Aead)
    (hLen : ∀ key nonce pt, (A.enc key nonce pt).length = pt.length + 16)
    (hInv : ∀ key nonce pt, A.dec key nonce (A.enc key nonce pt) = some pt)
    (key file_id : List Nat) (chunk_index : Nat) (plaintext : List Nat) :
    encrypt_chunk A key file_id chunk_index plaintext
      = .ok (writeU32LE plaintext.length ++
          A.enc key (build_nonce file_id chunk_index) plaintext)
    ∧ (writeU32LE plaintext.length ++
        A.enc key (build_nonce file_id chunk_index) plaintext).length
      = plaintext.length + 20
    ∧ decrypt_chunk A key file_id chunk_index
        (writeU32LE plaintext.length ++
          A.enc key (build_nonce file_id chunk_index) plaintext)
      = .ok plaintext := by
  refine ⟨rfl, ?_, ?_⟩
  · simp [hLen, writeU32LE]
  · unfold decrypt_chunk
    rw [if_neg (by simp [hLen, writeU32LE, ENCRYPTED_HEADER_SIZE])]
    rw [drop_prefix_append (writeU32LE plaintext.length) _ 4
      (writeU32LE_length _), hInv]

/-- C7: `decrypt_chunk` returns a decryption error exactly when the input is
shorter than the 4-byte header or the AEAD rejects `input[4..]`; in
particular every input shorter than 20 bytes is rejected (for 4 ≤ length < 20
the ciphertext is shorter than the 16-byte tag). -/
theorem open_error_conditions (A : Aead)
    (hShort : ∀ key nonce ct, ct.length < 16 → A.dec key nonce ct = none)
    (key file_id : List Nat) (chunk_index : Nat) (encrypted : List Nat) :
    ((∃ m, decrypt_chunk A key file_id chunk_index encrypted
        = .error (.decryption m))
      ↔ (encrypted.length < 4 ∨
          A.dec key (build_nonce file_id chunk_index) (encrypted.drop 4) = none))
    ∧ (encrypted.length < 20 →
        ∃ m, decrypt_chunk A key file_id chunk_index encrypted
          = .error (.decryption m)) := by
  have hmain : (∃ m, decrypt_chunk A key file_id chunk_index encrypted
      = .error (.decryption m))
      ↔ (encrypted.length < 4 ∨
        A.dec key (build_nonce file_id chunk_index) (encrypted.drop 4) = none) := by
    constructor
    · intro ⟨m, hm⟩
      by_cases h4 : encrypted.length < 4
      · exact Or.inl h4
      · right
        by_contra hne
        rcases Option.ne_none_iff_exists'.mp hne with ⟨pt, hpt⟩
        unfold decrypt_chunk at hm
        rw [if_neg (by simpa [ENCRYPTED_HEADER_SIZE] using h4), hpt] at hm
        simp at hm
    · intro h
      unfold decrypt_chunk
      by_cases h4 : encrypted.length < ENCRYPTED_HEADER_SIZE
      · rw [if_pos h4]
        exact ⟨_, rfl⟩
      · rw [if_neg h4]
        rcases h with h | hdec
        · exact absurd h (by simpa [ENCRYPTED_HEADER_SIZE] using h4)
        · rw [hdec]
          exact ⟨_, rfl⟩
  refine ⟨hmain, fun h20 => hmain.mpr ?_⟩
  by_cases h4 : encrypted.length < 4
  · left
    exact h4
  · right
    apply hShort
    simp
    omega

/-- A concrete AEAD satisfying the contract, for the witnesses: appends a
16-byte tag of zeros; decryption strips it after checking the length. -/
def demoAead : Aead where
  enc := fun _ _ pt => pt ++ List.replicate 16 0
  dec := fun _ _ ct => if ct.length < 16 then none
    else some (ct.take (ct.length - 16))

lemma demoAead_len : ∀ key nonce pt,
    (demoAead.enc key nonce pt).length = pt.length + 16 := by
  intro key nonce pt
  simp [demoAead]

lemma demoAead_inv : ∀ key nonce pt,
    demoAead.dec key nonce (demoAead.enc key nonce pt) = some pt := by
  intro key nonce pt
  simp only [demoAead, List.length_append, List.length_replicate,
    Nat.add_sub_cancel]
  rw [if_neg (by omega)]
  rw [take_prefix_append pt (List.replicate 16 0) pt.length rfl]

lemma demoAead_short : ∀ key nonce ct, ct.length < 16 →
    demoAead.dec key nonce ct = none := by
  intro key nonce ct h
  simp [demoAead, h]

/-- Witness for C6. -/
theorem seal_open_witness :
    (∀ key nonce pt, demoAead.dec key nonce (demoAead.enc key nonce pt) = some pt) ∧
    decrypt_chunk demoAead [9] demoFileId 0
        (writeU32LE (3 : Nat) ++ demoAead.enc [9] (build_nonce demoFileId 0) [1, 2, 3])
      = .ok [1, 2, 3] :=
  ⟨demoAead_inv,
    (seal_open_roundtrip demoAead demoAead_len demoAead_inv [9] demoFileId 0
      [1, 2, 3]).2.2⟩

/-- Witness for C7: a 5-byte buffer is rejected. -/
theorem open_error_witness :
    (5 : Nat) < 20 ∧
    ∃ m, decrypt_chunk demoAead [9] demoFileId 7 [1, 2, 3, 4, 5]
      = .error (.decryption m) :=
  ⟨by decide,
    (open_error_conditions demoAead demoAead_short [9] demoFileId 7
      [1, 2, 3, 4, 5]).2 (by decide)⟩

/-! ### C9: fountain encoder shape -/

structure FountainSymbol where
  esi : Nat
  is_repair : Bool
  data : List Nat
  deriving DecidableEq

/-- Modelled from the spec: the `fountain` module is declared in `lib.rs` and
called from `pipeline/encode.rs`, but its source file is not present under
src/.  Per spec §4.3 (Encode): `k = ⌈L/s⌉`; the payload is right-padded with
zero bytes to `k*s`; `k` source symbols (`esi = 0..k-1`, `is_repair = false`)
carry the consecutive `s`-byte slices of the padded payload verbatim;
`⌈k * repair_overhead⌉` repair symbols follow with `esi = k, k+1, …`.  The
repair symbols' contents (a deterministic XOR combination seeded by `esi`,
left open by the spec) are abstracted as a generator function producing
`s`-byte symbols. -/
def encode_chunk (payload : List Nat) (s : Nat) (repair_overhead : ℚ)
    (repairGen : Nat → List Nat) : List FountainSymbol :=
  let k := (payload.length + s - 1) / s
  let padded := payload ++ List.replicate (k * s - payload.length) 0
  let src := (List.range k).map
    (fun i => ⟨i, false, (padded.drop (i * s)).take s⟩)
  let rep := (List.range (⌈(k : ℚ) * repair_overhead⌉.toNat)).map
    (fun j => ⟨k + j, true, repairGen (k + j)⟩)
  src ++ rep

/-- C9: fountain encoding computes `k = ⌈L/s⌉`, pads the payload with zeros to
`k*s` bytes, emits the `k` source symbols (esi `0..k-1`, not repair) whose
data are the consecutive `s`-byte slices of the padded payload verbatim
(their concatenation is the padded payload), followed by
`⌈k*repair_overhead⌉` repair symbols with esi `k, k+1, …`; every emitted
symbol's data is exactly `s` bytes. -/
theorem fountain_encode_shape (payload : List Nat) (s : Nat) (hs : 0 < s)
    (repair_overhead : ℚ) (repairGen : Nat → List Nat)
    (hGen : ∀ e, (repairGen e).length = s) :
    (payload ++ List.replicate
        (((payload.length + s - 1) / s) * s - payload.length) 0).length
      = ((payload.length + s - 1) / s) * s
    ∧ (encode_chunk payload s repair_overhead repairGen).length
      = (payload.length + s - 1) / s
        + (⌈(((payload.length + s - 1) / s : Nat) : ℚ) * repair_overhead⌉).toNat
    ∧ (∀ i, i < (payload.length + s - 1) / s →
        (encode_chunk payload s repair_overhead repairGen)[i]?
        = some ⟨i, false,
            ((payload ++ List.replicate
              (((payload.length + s - 1) / s) * s - payload.length) 0).drop
                (i * s)).take s⟩)
    ∧ (((encode_chunk payload s repair_overhead repairGen).take
          ((payload.length + s - 1) / s)).map FountainSymbol.data).flatten
      = payload ++ List.replicate
          (((payload.length + s - 1) / s) * s - payload.length) 0
    ∧ (∀ j, j < (⌈(((payload.length + s - 1) / s : Nat) : ℚ)
          * repair_overhead⌉).toNat →
        (encode_chunk payload s repair_overhead repairGen)[(payload.length + s - 1) / s + j]?
        = some ⟨(payload.length + s - 1) / s + j, true,
            repairGen ((payload.length + s - 1) / s + j)⟩)
    ∧ (∀ sym ∈ encode_chunk payload s repair_overhead repairGen,
        sym.data.length = s) := by
  set k := (payload.length + s - 1) / s with hk
  set padded := payload ++ List.replicate (k * s - payload.length) 0 with hpadded
  have hklen : payload.length ≤ k * s := numChunks_mul_ge payload.length s hs
  have hpadlen : padded.length = k * s := by
    simp [hpadded]
    omega
  have hslice : ∀ i, i < k → ((padded.drop (i * s)).take s).length = s := by
    intro i hi
    simp only [List.length_take, List.length_drop, hpadlen]
    have hexp : (i + 1) * s = i * s + s := by ring
    have hmul : (i + 1) * s ≤ k * s := Nat.mul_le_mul_right s (by omega)
    omega
  refine ⟨hpadlen, by simp [encode_chunk], ?_, ?_, ?_, ?_⟩
  · intro i h
    have hik : i < k := by omega
    simp only [encode_chunk]
    rw [← hk, ← hpadded]
    rw [List.getElem?_append_left (by simpa using hik)]
    simp [List.getElem?_range, hik]
  · have htake : (encode_chunk payload s repair_overhead repairGen).take k
        = (List.range k).map
          (fun i => (⟨i, false, (padded.drop (i * s)).take s⟩ : FountainSymbol)) := by
      simp only [encode_chunk]
      rw [← hk, ← hpadded]
      exact take_prefix_append ((List.range k).map
        (fun i => (⟨i, false, (padded.drop (i * s)).take s⟩ : FountainSymbol))) _ k
        (by rw [List.length_map, List.length_range])
    rw [htake, List.map_map]
    have hmap : ((List.range k).map (FountainSymbol.data ∘
        fun i => (⟨i, false, (padded.drop (i * s)).take s⟩ : FountainSymbol)))
        = (List.range k).map (fun i => (padded.drop (i * s)).take s) := rfl
    rw [hmap]
    exact join_slices s k padded (by omega)
  · intro j h
    simp only [encode_chunk]
    rw [← hk, ← hpadded]
    rw [List.getElem?_append_right (by simp)]
    simp [List.getElem?_range, h]
  · intro sym hsym
    simp only [encode_chunk] at hsym
    rw [← hk, ← hpadded] at hsym
    rcases List.mem_append.mp hsym with h | h
    · rcases List.mem_map.mp h with ⟨i, hi, hieq⟩
      rw [← hieq]
      exact hslice i (by simpa using hi)
    · rcases List.mem_map.mp h with ⟨j, hj, hjeq⟩
      rw [← hjeq]
      exact hGen _

/-- Witness for C9: payload of 3 bytes, symbol size 2, 100% overhead. -/
theorem fountain_encode_witness :
    (0 : Nat) < 2 ∧
    (∀ sym ∈ encode_chunk [7, 8, 9] 2 1 (fun _ => [5, 5]),
      sym.data.length = 2) :=
  ⟨by decide,
    (fountain_encode_shape [7, 8, 9] 2 (by decide) 1 (fun _ => [5, 5])
      (fun _ => rfl)).2.2.2.2.2⟩

/-! ### C10: effective chunk size under encryption
(src/config/mod.rs chunk_size_for_encryption, src/chunker/mod.rs
effective_chunk_size) -/

/-- `config::chunk_size_for_encryption`: the source computes
`chunk_size - ENCRYPTION_OVERHEAD` with an unguarded usize subtraction, which
underflows (panics in debug builds, wraps in release) when
`chunk_size < 20`; the partiality is modelled with `Option`. -/
def chunk_size_for_encryption (chunk_size : Nat) : Option Nat :=
  if ENCRYPTION_OVERHEAD ≤ chunk_size then some (chunk_size - ENCRYPTION_OVERHEAD)
  else none

/-- `chunker::effective_chunk_size`. -/
def effective_chunk_size (chunk_size : Nat) (encrypted : Bool) : Option Nat :=
  if encrypted then chunk_size_for_encryption chunk_size else some chunk_size

/-- C10: with encryption the effective chunk size is `chunk_size - 20`,
defined only when `chunk_size ≥ 20` (the subtraction underflows otherwise, so
`chunk_size ≥ 20` is a required precondition whenever a password is
supplied); without encryption the chunk size is returned unchanged. -/
theorem effective_chunk_size_spec (chunk_size : Nat) :
    (20 ≤ chunk_size →
      effective_chunk_size chunk_size true = some (chunk_size - 20))
    ∧ effective_chunk_size chunk_size false = some chunk_size
    ∧ (chunk_size < 20 → effective_chunk_size chunk_size true = none) := by
  refine ⟨fun h => ?_, rfl, fun h => ?_⟩
  · simp [effective_chunk_size, chunk_size_for_encryption, ENCRYPTION_OVERHEAD,
      AEAD_TAG_SIZE, ENCRYPTED_HEADER_SIZE]
    omega
  · simp [effective_chunk_size, chunk_size_for_encryption, ENCRYPTION_OVERHEAD,
      AEAD_TAG_SIZE, ENCRYPTED_HEADER_SIZE]
    omega

/-- Witness for C10 at chunk sizes 1024 and 8. -/
theorem effective_chunk_size_witness :
    effective_chunk_size 1024 true = some 1004
    ∧ effective_chunk_size 8 true = none :=
  ⟨(effective_chunk_size_spec 1024).1 (by decide),
    (effective_chunk_size_spec 8).2.2 (by decide)⟩

end Yts3
